import Mathlib

/-!
# Process orchestration of the shell (`shell.cpp`)

A shallow embedding of the process-orchestration code of `shell.cpp`:
`processInput`, `processOutput`, `forkProcess`, `processCommand`,
`reapBackgroundPIDs`, `processPipes`, `changeDirectory` and the dispatch of
the prompt loop in `main`.

The operating system is not part of the repository.  It is modelled by a small
kernel: per-process descriptor tables with lowest-free allocation, pipes, files,
`fork` as a copy of the descriptor table, and a table of unreaped children.
Every system call a process issues is appended to that process's call log, so
that statements about which calls are made, and in which order, can be stated.
-/

namespace Shell

/-! ## Kernel objects -/

/-- A file descriptor number. -/
abbrev Fd := Nat

/-- A process identifier of a child (always positive). -/
abbrev Pid := Nat

/-- The `open` flags used by the program. -/
inductive OFlag where
  | O_RDONLY
  | O_WRONLY
  | O_CREAT
  | O_TRUNC
deriving DecidableEq, Repr

/-- An open file description, the kernel object a descriptor refers to. -/
inductive Desc where
  /-- a description that was already open when the shell started (terminal, ...) -/
  | inherited (n : Nat)
  /-- the read end of the `k`-th pipe created by the kernel -/
  | pipeRead (k : Nat)
  /-- the write end of the `k`-th pipe created by the kernel -/
  | pipeWrite (k : Nat)
  /-- a file opened by path with the given flags and creation mode -/
  | file (path : String) (flags : List OFlag) (mode : Nat)
deriving DecidableEq, Repr

/-- The descriptor table of one process: `none` means the descriptor is closed. -/
abbrev FdTable := Fd → Option Desc

/-- How a process ended: by `exit` with a code, or killed by a signal, with or
without a core dump. -/
inductive Termination where
  | exited (code : Nat)
  | signaled (sig : Nat) (core : Bool)
deriving DecidableEq, Repr

/-- The result of `waitpid(-1, &status, WNOHANG)`. -/
inductive WaitRet where
  /-- a terminated child was found and reaped; the call returns its pid (`> 0`) -/
  | reaped (pid : Pid)
  /-- children exist but none has terminated; the call returns `0` -/
  | noneReady
  /-- the caller has no children; the call returns `-1` -/
  | noChildren
deriving DecidableEq, Repr

/-- One system call, with its arguments and its result, as recorded in a call log. -/
inductive Syscall where
  | open (path : String) (flags : List OFlag) (mode : Nat) (ret : Option Fd)
  | dup2 (oldfd newfd : Fd) (ok : Bool)
  | close (fd : Fd)
  | pipe (ret : Option (Fd × Fd))
  | fork (ret : Option Pid)
  | execvp (argv : List String)
  /-- blocking `waitpid(pid, _, 0)` -/
  | waitpid (pid : Pid) (ret : Option Pid)
  /-- non-blocking `waitpid(-1, _, WNOHANG)` -/
  | waitAnyNoHang (ret : WaitRet)
  | chdir (path : String) (ok : Bool)
deriving DecidableEq, Repr

/-- The part of a process the shell code acts on: its descriptor table and the
system calls it has issued so far, oldest first. -/
structure Proc where
  fds : FdTable
  calls : List Syscall

/-- The environment the program runs in: resource limits and the answers of the
file system and of the programs that are executed. -/
structure Env where
  /-- the descriptor limit (`RLIMIT_NOFILE`): descriptors are `0 .. nofile-1` -/
  nofile : Nat
  /-- whether `open(path, flags)` finds (or can create) the file -/
  canOpen : String → List OFlag → Bool
  /-- whether the kernel refuses the fork made when `n` processes were created before -/
  forkFails : Nat → Bool
  /-- whether `execvp` finds an executable for this name -/
  canExec : String → Bool
  /-- how the program image running in process `pid` terminates -/
  program : Pid → Termination
  /-- whether process `pid` leaves a core dump when a signal that dumps core kills it -/
  dumpsCore : Pid → Bool
  /-- the result of `chdir(path)` in working directory `cwd`: the new working directory -/
  chdir : String → String → Option String

def STDIN_FILENO : Fd := 0

def STDOUT_FILENO : Fd := 1

/-- The table `t` with descriptor `fd` set to `v`. -/
def setFd (t : FdTable) (fd : Fd) (v : Option Desc) : FdTable :=
  fun x => if x = fd then v else t x

/-- The lowest closed descriptor below the limit, as allocated by `open` and `pipe`. -/
def lowestFree (nofile : Nat) (t : FdTable) : Option Fd :=
  (List.range nofile).find? (fun fd => (t fd).isNone)

/-- Append a call to the log of a process. -/
def Proc.log (p : Proc) (c : Syscall) : Proc :=
  { p with calls := p.calls ++ [c] }

/-- The call `open(path, flags, mode)`: fails when the file cannot be opened or no
descriptor is free, otherwise binds the lowest free descriptor to the file. -/
def sysOpen (env : Env) (path : String) (flags : List OFlag) (mode : Nat) (p : Proc) :
    Option Fd × Proc :=
  if env.canOpen path flags then
    match lowestFree env.nofile p.fds with
    | some fd =>
      (some fd, { fds := setFd p.fds fd (some (Desc.file path flags mode)),
                  calls := p.calls ++ [Syscall.open path flags mode (some fd)] })
    | none => (none, p.log (Syscall.open path flags mode none))
  else (none, p.log (Syscall.open path flags mode none))

/-- The call `dup2(oldfd, newfd)`: fails when `oldfd` is closed, otherwise `newfd`
refers to the description of `oldfd` (whatever `newfd` referred to is closed). -/
def sysDup2 (oldfd newfd : Fd) (p : Proc) : Bool × Proc :=
  match p.fds oldfd with
  | some d =>
    (true, { fds := setFd p.fds newfd (some d),
             calls := p.calls ++ [Syscall.dup2 oldfd newfd true] })
  | none => (false, p.log (Syscall.dup2 oldfd newfd false))

/-- The call `close(fd)`. -/
def sysClose (fd : Fd) (p : Proc) : Proc :=
  { fds := setFd p.fds fd none, calls := p.calls ++ [Syscall.close fd] }

/-- The call `pipe(fds)`: creates pipe number `k` and binds the two lowest free
descriptors to its read and write end; fails when fewer than two are free. -/
def sysPipe (env : Env) (k : Nat) (p : Proc) : Option (Fd × Fd) × Proc :=
  match lowestFree env.nofile p.fds with
  | none => (none, p.log (Syscall.pipe none))
  | some r =>
    match lowestFree env.nofile (setFd p.fds r (some (Desc.pipeRead k))) with
    | none => (none, p.log (Syscall.pipe none))
    | some w =>
      (some (r, w),
        { fds := setFd (setFd p.fds r (some (Desc.pipeRead k))) w (some (Desc.pipeWrite k)),
          calls := p.calls ++ [Syscall.pipe (some (r, w))] })

/-! ## Redirection: `processInput`, `processOutput` -/

/-- The outcome of code that runs inside one process and may call `exit`. -/
inductive PStep where
  | ok (p : Proc)
  | exit (code : Nat) (p : Proc)

/-- The function `processInput(file)`: open read-only, bind to standard input, close the
descriptor returned by `open`; `exit(2)` when `open` or `dup2` fails. -/
def processInput (env : Env) (file : String) (p : Proc) : PStep :=
  match sysOpen env file [OFlag.O_RDONLY] 0 p with
  | (none, p1) => PStep.exit 2 p1
  | (some fd, p1) =>
    match sysDup2 fd STDIN_FILENO p1 with
    | (false, p2) => PStep.exit 2 (sysClose fd p2)
    | (true, p2) => PStep.ok (sysClose fd p2)

/-- The function `processOutput(file)`: open write-only with create and truncate, mode 0644,
bind to standard output, close the descriptor returned by `open`; `exit(2)` when
`open` or `dup2` fails. -/
def processOutput (env : Env) (file : String) (p : Proc) : PStep :=
  match sysOpen env file [OFlag.O_WRONLY, OFlag.O_CREAT, OFlag.O_TRUNC] 0o644 p with
  | (none, p1) => PStep.exit 2 p1
  | (some fd, p1) =>
    match sysDup2 fd STDOUT_FILENO p1 with
    | (false, p2) => PStep.exit 2 (sysClose fd p2)
    | (true, p2) => PStep.ok (sysClose fd p2)

/-- The descriptor table a step ends with. -/
def PStep.fds : PStep → FdTable
  | PStep.ok p => p.fds
  | PStep.exit _ p => p.fds

/-- Whether a step returned to its caller (did not call `exit`). -/
def PStep.returned : PStep → Bool
  | PStep.ok _ => true
  | PStep.exit _ _ => false

/-! ## Commands, children and the state of the shell -/

/-- Modelled from the spec: the `Command` type of `Tokenizer.h`, which is not among
the sources.  The spec describes it as an ordered list of argument strings
(`args`, `args[0]` the executable name), an optional input-file path, an optional
output-file path and a background flag. -/
structure Command where
  args : List String
  in_file : Option String
  out_file : Option String
  background : Bool
deriving DecidableEq, Repr

def Command.hasInput (c : Command) : Bool := c.in_file.isSome

def Command.hasOutput (c : Command) : Bool := c.out_file.isSome

def Command.isBackground (c : Command) : Bool := c.background

/-- What became of a child after `fork`: it runs shell code until it either
replaces its image through a successful `execvp`, or calls `exit`, or is killed
by a signal. -/
inductive ChildEnd where
  /-- the call `execvp(argv)` succeeded; `p.fds` is the table the new image starts with -/
  | image (argv : List String) (p : Proc)
  /-- the child called `exit(code)` -/
  | exit (code : Nat) (p : Proc)
  /-- the child was killed by signal `sig` while it ran shell code -/
  | killed (sig : Nat) (p : Proc)

/-- The process state a child stopped running shell code with. -/
def ChildEnd.proc : ChildEnd → Proc
  | ChildEnd.image _ p => p
  | ChildEnd.exit _ p => p
  | ChildEnd.killed _ p => p

/-- The descriptor table of the child at the moment it called `execvp`, when it
got that far: the last call of its log then is the `execvp`. -/
def ChildEnd.fdsAtExec (c : ChildEnd) : Option FdTable :=
  match c.proc.calls.getLast? with
  | some (Syscall.execvp _) => some c.proc.fds
  | _ => none

/-- A child process of the shell. -/
structure Child where
  pid : Pid
  /-- launch context: `true` when launched by `processCommand` for a background command -/
  background : Bool
  run : ChildEnd

/-- The state of the shell process and of the kernel objects it owns. -/
structure World where
  /-- descriptor table and call log of the shell process -/
  shell : Proc
  /-- working directory of the shell process -/
  cwd : String
  /-- the global `vector<int> backgroundPIDs` -/
  backgroundPIDs : List Pid
  /-- every child forked so far, in spawn order -/
  children : List Child
  /-- children that are still running -/
  running : List Pid
  /-- children that have terminated and have not been waited for -/
  zombies : List Pid
  /-- number of processes created so far -/
  nextPid : Nat
  /-- number of pipes created so far -/
  nextPipe : Nat

/-- How the shell process stops: a call of `exit(code)` (or `main` returning
`code`), or an uncaught C++ exception (`vector::at`, `vector` length error). -/
inductive Halt where
  | exit (code : Nat)
  | abort
deriving DecidableEq, Repr

/-- The outcome of shell code run in the shell process: it returns a value, or the
process stops. -/
inductive Step (α : Type) where
  | ok (a : α) (w : World)
  | halt (h : Halt) (w : World)

/-- The state a step ends with. -/
def Step.world {α : Type} : Step α → World
  | Step.ok _ w => w
  | Step.halt _ w => w

/-- The way the shell stopped, if it did. -/
def Step.halted {α : Type} : Step α → Option Halt
  | Step.ok _ _ => none
  | Step.halt h _ => some h

/-- The value a step returned, if it did. -/
def Step.value {α : Type} : Step α → Option α
  | Step.ok a _ => some a
  | Step.halt _ _ => none

/-- The exit status of a process as its parent sees it: the low 8 bits of the value
passed to `exit`. -/
def exitCodeSeen (code : Nat) : Nat := code % 256

/-- The exit status of the shell as seen by its parent, when the step ended the
shell through `exit`. -/
def Step.shellExitCode {α : Type} : Step α → Option Nat
  | Step.halt (Halt.exit code) _ => some (exitCodeSeen code)
  | _ => none

/-- The value `waitpid` stores in `status` (the encoding of `<sys/wait.h>` on Linux:
`WEXITSTATUS(status) = (status >> 8) & 0xff`, `WTERMSIG(status) = status & 0x7f`,
`WCOREDUMP(status) = status & 0x80`). -/
def waitStatus : Termination → Nat
  | Termination.exited code => (code % 256) * 256
  | Termination.signaled sig core => sig % 128 + (if core then 128 else 0)

/-- How a child terminates: with the code it passed to `exit`, by the signal that
killed it, or the way the program it executed ends. -/
def Child.termination (env : Env) (c : Child) : Termination :=
  match c.run with
  | ChildEnd.exit code _ => Termination.exited (exitCodeSeen code)
  | ChildEnd.killed sig _ => Termination.signaled sig (env.dumpsCore c.pid)
  | ChildEnd.image _ _ => env.program c.pid

/-- Append a call to the log of the shell process. -/
def World.log (w : World) (c : Syscall) : World :=
  { w with shell := w.shell.log c }

/-- The call `fork()`.  On success a child with a fresh pid is created; it starts
with a copy of the shell's descriptor table and runs `body`, the code of the
`pid == 0` branch.  The parent gets the child's pid. -/
def sysFork (env : Env) (background : Bool) (body : Proc → ChildEnd) (w : World) :
    Option Pid × World :=
  if env.forkFails w.nextPid then (none, w.log (Syscall.fork none))
  else
    (some (w.nextPid + 1),
      { w with
        shell := w.shell.log (Syscall.fork (some (w.nextPid + 1)))
        children := w.children ++
          [{ pid := w.nextPid + 1, background := background,
             run := body { fds := w.shell.fds, calls := [] } }]
        running := w.running ++ [w.nextPid + 1]
        nextPid := w.nextPid + 1 })

/-- The blocking call `waitpid(pid, &status, 0)`: when `pid` is an unreaped child
it returns once the child has terminated, stores its wait status and reaps it;
otherwise it fails and leaves `status` alone. -/
def sysWaitpid (env : Env) (pid : Pid) (status : Nat) (w : World) :
    (Option Pid × Nat) × World :=
  match w.children.find? (fun c => c.pid = pid) with
  | some c =>
    if pid ∈ w.running ∨ pid ∈ w.zombies then
      ((some pid, waitStatus (c.termination env)),
        { w with
          shell := w.shell.log (Syscall.waitpid pid (some pid))
          running := w.running.erase pid
          zombies := w.zombies.erase pid })
    else ((none, status), w.log (Syscall.waitpid pid none))
  | none => ((none, status), w.log (Syscall.waitpid pid none))

/-- The non-blocking call `waitpid(-1, &status, WNOHANG)`: reaps one terminated
child if there is one. -/
def sysWaitAnyNoHang (w : World) : WaitRet × World :=
  match w.zombies with
  | z :: zs =>
    (WaitRet.reaped z,
      { w with shell := w.shell.log (Syscall.waitAnyNoHang (WaitRet.reaped z)), zombies := zs })
  | [] =>
    if w.running.isEmpty then
      (WaitRet.noChildren, w.log (Syscall.waitAnyNoHang WaitRet.noChildren))
    else (WaitRet.noneReady, w.log (Syscall.waitAnyNoHang WaitRet.noneReady))

/-- A running child terminates (an event of the environment). -/
def childExits (pid : Pid) (w : World) : World :=
  if pid ∈ w.running then
    { w with running := w.running.erase pid, zombies := w.zombies ++ [pid] }
  else w

/-! ## `forkProcess`, `processCommand`, `reapBackgroundPIDs` -/

/-- The function `forkProcess()`: `fork`, and `exit(2)` when it fails.  `body` is the
code the caller runs in the child (`pid == 0`); the value returned here is the
pid seen by the parent. -/
def forkProcess (env : Env) (background : Bool) (body : Proc → ChildEnd) (w : World) :
    Step Pid :=
  match sysFork env background body w with
  | (none, w1) => Step.halt (Halt.exit 2) w1
  | (some pid, w1) => Step.ok pid w1

/-- The signal number of `SIGSEGV` on Linux. -/
def SIGSEGV : Nat := 11

/-- The end of both child branches: build `argv` from `args` and call `execvp`;
`exit(2)` when it fails.  With no arguments `argv.at(0)` is the null pointer:
`execvp(nullptr, ...)` reads the file name through it and the child is killed by
`SIGSEGV` inside the C library. -/
def execCommand (env : Env) (args : List String) (p : Proc) : ChildEnd :=
  match args.head? with
  | some prog =>
    if env.canExec prog then ChildEnd.image args (p.log (Syscall.execvp args))
    else ChildEnd.exit 2 (p.log (Syscall.execvp args))
  | none => ChildEnd.killed SIGSEGV (p.log (Syscall.execvp args))

/-- The redirections of a child followed by `execvp`: lines 121-142 of
`processCommand`, and the identical lines 197-216 of `processPipes`. -/
def redirectAndExec (env : Env) (cmd : Command) (p : Proc) : ChildEnd :=
  match (if cmd.hasInput then processInput env (cmd.in_file.getD "") p else PStep.ok p) with
  | PStep.exit code p1 => ChildEnd.exit code p1
  | PStep.ok p1 =>
    match (if cmd.hasOutput then processOutput env (cmd.out_file.getD "") p1
           else PStep.ok p1) with
    | PStep.exit code p2 => ChildEnd.exit code p2
    | PStep.ok p2 => execCommand env cmd.args p2

/-- The function `processCommand(cmd)`: fork; the child redirects and executes;
the parent waits for a foreground child and exits with `status` when
`status > 1`, or records a background child in `backgroundPIDs`. -/
def processCommand (env : Env) (cmd : Command) (w : World) : Step Unit :=
  match forkProcess env cmd.isBackground (redirectAndExec env cmd) w with
  | Step.halt h w1 => Step.halt h w1
  | Step.ok pid w1 =>
    if !cmd.isBackground then
      match sysWaitpid env pid 0 w1 with
      | ((_, status), w2) =>
        if status > 1 then Step.halt (Halt.exit status) w2
        else Step.ok () w2
    else Step.ok () { w1 with backgroundPIDs := w1.backgroundPIDs ++ [pid] }

/-- The loop of `reapBackgroundPIDs`, with a bound on the number of iterations. -/
def reapLoop : Nat → World → World
  | 0, w => w
  | fuel + 1, w =>
    match sysWaitAnyNoHang w with
    | (WaitRet.reaped _, w1) => reapLoop fuel w1
    | (_, w1) => w1

/-- The function `reapBackgroundPIDs()`: call `waitpid(-1, &status, WNOHANG)` until
it no longer returns a pid.  Each iteration reaps one terminated child, so one
more iteration than there are terminated children reaches the end of the loop. -/
def reapBackgroundPIDs (w : World) : World :=
  reapLoop (w.zombies.length + 1) w

/-! ## `processPipes` -/

/-- The first loop of `processPipes`: create `m` pipes, `exit(2)` when a `pipe`
call fails.  The result lists the descriptor pairs `pipes[0..m-1]`. -/
def createPipes (env : Env) : Nat → World → Step (List (Fd × Fd))
  | 0, w => Step.ok [] w
  | m + 1, w =>
    match sysPipe env w.nextPipe w.shell with
    | (none, p1) => Step.halt (Halt.exit 2) { w with shell := p1 }
    | (some pr, p1) =>
      match createPipes env m { w with shell := p1, nextPipe := w.nextPipe + 1 } with
      | Step.halt h w2 => Step.halt h w2
      | Step.ok prs w2 => Step.ok (pr :: prs) w2

/-- The loop `for (auto &p : pipes) { close(p[0]); close(p[1]); }`. -/
def closePipes : List (Fd × Fd) → Proc → Proc
  | [], p => p
  | pr :: prs, p => closePipes prs (sysClose pr.2 (sysClose pr.1 p))

/-- The pipe wiring of stage `i` in its child (lines 184-195): bind standard input
to the read end of pipe `i-1` when `i > 0`, standard output to the write end of
pipe `i` when `i < n-1` (the results of these `dup2` calls are not checked), then
close every pipe descriptor. -/
def wireStage (pipes : List (Fd × Fd)) (n i : Nat) (p : Proc) : Proc :=
  let p1 := if i > 0 then (sysDup2 (pipes.getD (i - 1) (0, 0)).1 STDIN_FILENO p).2 else p
  let p2 := if i < n - 1 then (sysDup2 (pipes.getD i (0, 0)).2 STDOUT_FILENO p1).2 else p1
  closePipes pipes p2

/-- The child branch of stage `i` of `processPipes` (lines 184-216): wire the
pipes, then redirect and execute. -/
def pipeChild (env : Env) (pipes : List (Fd × Fd)) (n i : Nat) (cmd : Command)
    (p : Proc) : ChildEnd :=
  redirectAndExec env cmd (wireStage pipes n i p)

/-- The second loop of `processPipes`: for the stages `i, i+1, ...` running the
commands `cmds`, fork a child per stage and collect the pids in `pids`. -/
def forkStages (env : Env) (pipes : List (Fd × Fd)) (n : Nat) :
    Nat → List Command → World → Step (List Pid)
  | _, [], w => Step.ok [] w
  | i, cmd :: cmds, w =>
    match forkProcess env false (pipeChild env pipes n i cmd) w with
    | Step.halt h w1 => Step.halt h w1
    | Step.ok pid w1 =>
      match forkStages env pipes n (i + 1) cmds w1 with
      | Step.halt h w2 => Step.halt h w2
      | Step.ok pids w2 => Step.ok (pid :: pids) w2

/-- The loop `for (pid_t pid : pids) waitpid(pid, nullptr, 0);`. -/
def waitAll (env : Env) : List Pid → World → World
  | [], w => w
  | pid :: pids, w => waitAll env pids (sysWaitpid env pid 0 w).2

/-- The function `processPipes(commands)`.  With no command, `n - 1` wraps around in
`size_t` and the constructor of `pipes` throws. -/
def processPipes (env : Env) (commands : List Command) (w : World) : Step Unit :=
  if commands.length = 0 then Step.halt Halt.abort w
  else
    match createPipes env (commands.length - 1) w with
    | Step.halt h w1 => Step.halt h w1
    | Step.ok pipes w1 =>
      match forkStages env pipes commands.length 0 commands w1 with
      | Step.halt h w2 => Step.halt h w2
      | Step.ok pids w2 =>
        Step.ok () (waitAll env pids { w2 with shell := closePipes pipes w2.shell })

/-! ## `changeDirectory` and the prompt loop of `main` -/

/-- The function `getCurrentDir()`, for a `getcwd` that succeeds. -/
def getCurrentDir (w : World) : String := w.cwd

/-- The call `chdir(path)`. -/
def sysChdir (env : Env) (path : String) (w : World) : Bool × World :=
  match env.chdir w.cwd path with
  | some d => (true, { w with cwd := d, shell := w.shell.log (Syscall.chdir path true) })
  | none => (false, w.log (Syscall.chdir path false))

/-- The function `changeDirectory(tknr, prevwd)`: change to `prevwd` when the
argument is `-`, to the argument otherwise; a failure only prints a message.  The
value returned is the working directory found on entry.  `at` throws when the
command or its argument is missing. -/
def changeDirectory (env : Env) (commands : List Command) (prevwd : String) (w : World) :
    Step String :=
  match commands.head? with
  | none => Step.halt Halt.abort w
  | some c0 =>
    match c0.args.get? 1 with
    | none => Step.halt Halt.abort w
    | some a1 =>
      Step.ok (getCurrentDir w) (sysChdir env (if a1 = "-" then prevwd else a1) w).2

/-- One line of input as the prompt loop sees it. -/
inductive Line where
  /-- the line `exit` -/
  | exit
  /-- a line for which the tokenizer reports an error -/
  | invalid
  /-- the commands of a tokenized line -/
  | commands (cs : List Command)

/-- The body of the prompt loop after the line is read (lines 247-268), with
`prevwd` the local variable of `main`: the value returned is the new `prevwd`. -/
def dispatch (env : Env) (line : Line) (prevwd : String) (w : World) : Step String :=
  match line with
  | Line.exit => Step.halt (Halt.exit 0) w
  | Line.invalid => Step.ok prevwd w
  | Line.commands cs =>
    match cs.head? with
    | none => Step.halt Halt.abort w
    | some c0 =>
      match c0.args.head? with
      | none => Step.halt Halt.abort w
      | some a0 =>
        if a0 = "cd" then changeDirectory env cs prevwd w
        else if cs.length = 1 then
          match processCommand env c0 w with
          | Step.halt h w1 => Step.halt h w1
          | Step.ok _ w1 => Step.ok prevwd w1
        else
          match processPipes env cs w with
          | Step.halt h w1 => Step.halt h w1
          | Step.ok _ w1 => Step.ok prevwd w1

/-- One iteration of the prompt loop: reap, then read and dispatch a line. -/
def mainIter (env : Env) (line : Line) (prevwd : String) (w : World) : Step String :=
  dispatch env line prevwd (reapBackgroundPIDs w)

/-- The prompt loop on a list of input lines. -/
def mainLoop (env : Env) : List Line → String → World → Step String
  | [], prevwd, w => Step.ok prevwd w
  | l :: ls, prevwd, w =>
    match mainIter env l prevwd w with
    | Step.halt h w1 => Step.halt h w1
    | Step.ok prevwd1 w1 => mainLoop env ls prevwd1 w1

/-- The start of `main`: `prevwd` is the working directory at startup. -/
def shellMain (env : Env) (lines : List Line) (w : World) : Step String :=
  mainLoop env lines (getCurrentDir w) w

/-- What can happen to the shell between two observations: a dispatch, a call of
`reapBackgroundPIDs`, or the termination of a running child. -/
inductive Action where
  | dispatch (line : Line)
  | reap
  | childExits (pid : Pid)

/-- Run a sequence of actions. -/
def runActions (env : Env) : List Action → String → World → Step String
  | [], prevwd, w => Step.ok prevwd w
  | Action.dispatch l :: as, prevwd, w =>
    match dispatch env l prevwd w with
    | Step.halt h w1 => Step.halt h w1
    | Step.ok prevwd1 w1 => runActions env as prevwd1 w1
  | Action.reap :: as, prevwd, w => runActions env as prevwd (reapBackgroundPIDs w)
  | Action.childExits pid :: as, prevwd, w => runActions env as prevwd (childExits pid w)

/-! ## Concrete environments and inputs -/

/-- The descriptor table of a shell started from a terminal: 0, 1 and 2 are open. -/
def stdTable : FdTable := fun fd => if fd < 3 then some (Desc.inherited fd) else none

/-- The descriptor table of a shell started with standard output closed (`>&-`). -/
def noStdoutTable : FdTable :=
  fun fd => if fd = 0 ∨ fd = 2 then some (Desc.inherited fd) else none

/-- The descriptor table of a process started with standard input closed (`<&-`). -/
def noStdinTable : FdTable :=
  fun fd => if fd = 1 ∨ fd = 2 then some (Desc.inherited fd) else none

/-- A shell that has just started, with descriptor table `t` and working directory `cwd`. -/
def startWorld (t : FdTable) (cwd : String) : World :=
  { shell := { fds := t, calls := [] }, cwd := cwd, backgroundPIDs := [], children := [],
    running := [], zombies := [], nextPid := 0, nextPipe := 0 }

/-- An environment with 16 descriptors, in which files can be created and `in.txt`
exists, forks succeed, the programs `ls`, `wc`, `sleep`, `true` and `false` exist,
every program that runs exits with `code`, no core is dumped, and the
directories are `/home/user` and `/tmp`. -/
def demoEnv (code : Nat) : Env :=
  { nofile := 16
    canOpen := fun path flags => decide (OFlag.O_CREAT ∈ flags) || decide (path = "in.txt")
    forkFails := fun _ => false
    canExec := fun prog => decide (prog ∈ ["ls", "wc", "sleep", "true", "false"])
    program := fun _ => Termination.exited code
    dumpsCore := fun _ => false
    chdir := fun _ path => if path ∈ ["/home/user", "/tmp"] then some path else none }

/-- A command with the given arguments, no redirection, in the foreground. -/
def simpleCommand (args : List String) : Command :=
  { args := args, in_file := none, out_file := none, background := false }

/-! ## Notions used in the statements -/

/-- The pids of the background children among `cs`, in launch order. -/
def backgroundPidsOf (cs : List Child) : List Pid :=
  (cs.filter (fun c => c.background)).map (fun c => c.pid)

/-- The state `w2` extends `w1`: children were only appended, and the registry grew
by exactly the pids of the appended background children, in launch order. -/
def Extends (w1 w2 : World) : Prop :=
  ∃ cs, w2.children = w1.children ++ cs ∧
    w2.backgroundPIDs = w1.backgroundPIDs ++ backgroundPidsOf cs

/-- The descriptors of a list of pipes, in the order `p[0]`, `p[1]` per pipe. -/
def pipeFds : List (Fd × Fd) → List Fd
  | [] => []
  | pr :: prs => pr.1 :: pr.2 :: pipeFds prs

/-- The table `t` is the table `t0` after the pipes `ps`, numbered from `k0`, were
created in it: outside the pipe descriptors the tables agree, the pipe
descriptors were closed in `t0`, in `t` the descriptors of pipe `j` refer to
the read and write end of pipe `k0 + j`, and the pipe descriptors are below the
descriptor limit. -/
structure PipesOK (nofile : Nat) (t0 : FdTable) (k0 : Nat) (ps : List (Fd × Fd))
    (t : FdTable) : Prop where
  outside : ∀ fd, fd ∉ pipeFds ps → t fd = t0 fd
  fresh : ∀ fd, fd ∈ pipeFds ps → t0 fd = none
  ends : ∀ j, j < ps.length →
    t (ps.getD j (0, 0)).1 = some (Desc.pipeRead (k0 + j)) ∧
      t (ps.getD j (0, 0)).2 = some (Desc.pipeWrite (k0 + j))
  below : ∀ fd, fd ∈ pipeFds ps → fd < nofile

/-- The children `forkStages` creates for the stages `i, i+1, ...` when every fork
succeeds, `k` processes were created before and the shell's table is `t`. -/
def stageChildren (env : Env) (pipes : List (Fd × Fd)) (n : Nat) (t : FdTable) :
    Nat → Nat → List Command → List Child
  | _, _, [] => []
  | i, k, cmd :: cmds =>
    { pid := k + 1, background := false,
      run := pipeChild env pipes n i cmd { fds := t, calls := [] } } ::
      stageChildren env pipes n t (i + 1) (k + 1) cmds

/-- The pid a successful `fork` call returned to the parent. -/
def Syscall.forkedPid : Syscall → Option Pid
  | Syscall.fork ret => ret
  | _ => none

/-- Whether a call is a wait call (blocking or not). -/
def Syscall.isWait : Syscall → Bool
  | Syscall.waitpid _ _ => true
  | Syscall.waitAnyNoHang _ => true
  | _ => false

/-- The pipeline `ls | wc`. -/
def lsWc : List Command := [simpleCommand ["ls"], simpleCommand ["wc"]]

/-- The pipeline `ls > out.txt | wc`: the first stage has both a pipe and a file
on its standard output. -/
def lsToFileWc : List Command :=
  [{ simpleCommand ["ls"] with out_file := some "out.txt" }, simpleCommand ["wc"]]

/-- The descriptor table the child of stage `i` has when it calls `execvp`, for a
pipeline of `n` stages whose pipes are numbered from `k0`, run by a shell whose
table on entry is `t0`: a redirection file if the command names one, otherwise
the neighbouring pipe end if there is one, otherwise the inherited stream; every
other descriptor as in `t0`. -/
def stageTable (t0 : FdTable) (k0 n i : Nat) (cmd : Command) : FdTable :=
  fun fd =>
    if fd = STDIN_FILENO then
      match cmd.in_file with
      | some f => some (Desc.file f [OFlag.O_RDONLY] 0)
      | none => if i > 0 then some (Desc.pipeRead (k0 + (i - 1))) else t0 STDIN_FILENO
    else if fd = STDOUT_FILENO then
      match cmd.out_file with
      | some f => some (Desc.file f [OFlag.O_WRONLY, OFlag.O_CREAT, OFlag.O_TRUNC] 0o644)
      | none => if i < n - 1 then some (Desc.pipeWrite (k0 + i)) else t0 STDOUT_FILENO
    else t0 fd

/-! ## Descriptor tables -/

theorem setFd_same (t : FdTable) (fd : Fd) (v : Option Desc) : setFd t fd v fd = v := by
  simp [setFd]

theorem setFd_other (t : FdTable) (fd x : Fd) (v : Option Desc) (h : x ≠ fd) :
    setFd t fd v x = t x := by
  simp [setFd, h]

/-- A descriptor handed out by the allocator was closed. -/
theorem lowestFree_closed {n : Nat} {t : FdTable} {fd : Fd} (h : lowestFree n t = some fd) :
    t fd = none := by
  have h1 := List.find?_some h
  simpa using h1

/-- A successful `open` returns a descriptor that was closed, and binds it to the file. -/
theorem sysOpen_some {env : Env} {path : String} {flags : List OFlag} {mode : Nat}
    {p : Proc} {fd : Fd} (h : (sysOpen env path flags mode p).1 = some fd) :
    p.fds fd = none ∧
      (sysOpen env path flags mode p).2.fds = setFd p.fds fd (some (Desc.file path flags mode)) := by
  unfold sysOpen at h ⊢
  by_cases hc : env.canOpen path flags = true
  · simp only [hc, if_true] at h ⊢
    cases hl : lowestFree env.nofile p.fds with
    | none => simp [hl] at h
    | some fd1 =>
      simp only [hl] at h ⊢
      have hfd : fd1 = fd := by simpa using h
      subst hfd
      exact ⟨lowestFree_closed hl, rfl⟩
  · simp [hc] at h

/-! ## Redirection -/

/-- The effect of `open`, `dup2` onto `target` and `close` on the descriptor table,
when `open` returned `fd` and `target` was open: `target` refers to the file
and every other descriptor is as before. -/
theorem bind_table (t : FdTable) (fd target : Fd) (d : Desc)
    (hfree : t fd = none) (htarget : (t target).isSome = true) :
    setFd (setFd (setFd t fd (some d)) target (some d)) fd none target = some d ∧
      ∀ x, x ≠ target →
        setFd (setFd (setFd t fd (some d)) target (some d)) fd none x = t x := by
  have hne : target ≠ fd := by
    intro h
    rw [h, hfree] at htarget
    simp at htarget
  constructor
  · simp [setFd, hne]
  · intro x hx
    by_cases hxfd : x = fd
    · subst hxfd
      simp [setFd, hfree]
    · simp [setFd, hx, hxfd]

theorem processInput_some {env : Env} {file : String} {p : Proc} {fd : Fd}
    (h : (sysOpen env file [OFlag.O_RDONLY] 0 p).1 = some fd) :
    processInput env file p =
      PStep.ok (sysClose fd (sysDup2 fd STDIN_FILENO (sysOpen env file [OFlag.O_RDONLY] 0 p).2).2) := by
  have hfds := (sysOpen_some h).2
  unfold processInput
  rcases hs : sysOpen env file [OFlag.O_RDONLY] 0 p with ⟨r, p1⟩
  rw [hs] at h hfds
  simp only at h hfds
  subst h
  have hopen : p1.fds fd = some (Desc.file file [OFlag.O_RDONLY] 0) := by
    rw [hfds, setFd_same]
  simp [sysDup2, hopen]

theorem processOutput_some {env : Env} {file : String} {p : Proc} {fd : Fd}
    (h : (sysOpen env file [OFlag.O_WRONLY, OFlag.O_CREAT, OFlag.O_TRUNC] 0o644 p).1 = some fd) :
    processOutput env file p =
      PStep.ok (sysClose fd (sysDup2 fd STDOUT_FILENO
        (sysOpen env file [OFlag.O_WRONLY, OFlag.O_CREAT, OFlag.O_TRUNC] 0o644 p).2).2) := by
  have hfds := (sysOpen_some h).2
  unfold processOutput
  rcases hs : sysOpen env file [OFlag.O_WRONLY, OFlag.O_CREAT, OFlag.O_TRUNC] 0o644 p with ⟨r, p1⟩
  rw [hs] at h hfds
  simp only at h hfds
  subst h
  have hopen : p1.fds fd =
      some (Desc.file file [OFlag.O_WRONLY, OFlag.O_CREAT, OFlag.O_TRUNC] 0o644) := by
    rw [hfds, setFd_same]
  simp [sysDup2, hopen]

/-- The descriptor table after a redirection whose `open` succeeded. -/
theorem redirect_fds {env : Env} {file : String} {flags : List OFlag} {mode : Nat}
    {p : Proc} {fd : Fd} (target : Fd)
    (h : (sysOpen env file flags mode p).1 = some fd) :
    (sysClose fd (sysDup2 fd target (sysOpen env file flags mode p).2).2).fds =
      setFd (setFd (setFd p.fds fd (some (Desc.file file flags mode))) target
        (some (Desc.file file flags mode))) fd none := by
  have hfds := (sysOpen_some h).2
  have hopen : (sysOpen env file flags mode p).2.fds fd = some (Desc.file file flags mode) := by
    rw [hfds, setFd_same]
  simp [sysClose, sysDup2, hopen, hfds]

/-- C9 (as amended): for every file path and every descriptor table in which the
standard stream is open on entry, when the `open` call inside `processInput`
(respectively `processOutput`) succeeds, the function returns, standard input
(respectively standard output) refers to the opened file (opened read-only,
respectively write-only with create and truncate and mode 0644), and every other
descriptor is exactly as on entry, so the descriptor returned by `open` is not
leaked. -/
theorem redirection_binds_open_stream (env : Env) (file : String) (p : Proc) :
    (∀ fd, (p.fds STDIN_FILENO).isSome = true →
      (sysOpen env file [OFlag.O_RDONLY] 0 p).1 = some fd →
      (processInput env file p).returned = true ∧
      (processInput env file p).fds STDIN_FILENO =
        some (Desc.file file [OFlag.O_RDONLY] 0) ∧
      ∀ x, x ≠ STDIN_FILENO → (processInput env file p).fds x = p.fds x) ∧
    (∀ fd, (p.fds STDOUT_FILENO).isSome = true →
      (sysOpen env file [OFlag.O_WRONLY, OFlag.O_CREAT, OFlag.O_TRUNC] 0o644 p).1 = some fd →
      (processOutput env file p).returned = true ∧
      (processOutput env file p).fds STDOUT_FILENO =
        some (Desc.file file [OFlag.O_WRONLY, OFlag.O_CREAT, OFlag.O_TRUNC] 0o644) ∧
      ∀ x, x ≠ STDOUT_FILENO → (processOutput env file p).fds x = p.fds x) := by
  constructor
  · intro fd hopen h
    have hb := bind_table p.fds fd STDIN_FILENO (Desc.file file [OFlag.O_RDONLY] 0)
      (sysOpen_some h).1 hopen
    rw [processInput_some h]
    simp only [PStep.returned, PStep.fds, redirect_fds STDIN_FILENO h]
    exact ⟨trivial, hb.1, hb.2⟩
  · intro fd hopen h
    have hb := bind_table p.fds fd STDOUT_FILENO
      (Desc.file file [OFlag.O_WRONLY, OFlag.O_CREAT, OFlag.O_TRUNC] 0o644)
      (sysOpen_some h).1 hopen
    rw [processOutput_some h]
    simp only [PStep.returned, PStep.fds, redirect_fds STDOUT_FILENO h]
    exact ⟨trivial, hb.1, hb.2⟩

/-- Witness for C9 (as amended): in a process started from a terminal,
`processInput("in.txt")` and `processOutput("out.txt")` both get descriptor 3 from
`open` and leave the standard stream bound to the file. -/
theorem redirection_binds_open_stream_witness :
    (processInput (demoEnv 0) "in.txt" { fds := stdTable, calls := [] }).fds STDIN_FILENO =
        some (Desc.file "in.txt" [OFlag.O_RDONLY] 0) ∧
      (processOutput (demoEnv 0) "out.txt" { fds := stdTable, calls := [] }).fds STDOUT_FILENO =
        some (Desc.file "out.txt" [OFlag.O_WRONLY, OFlag.O_CREAT, OFlag.O_TRUNC] 0o644) :=
  ⟨((redirection_binds_open_stream (demoEnv 0) "in.txt" { fds := stdTable, calls := [] }).1 3
      (by decide) (by decide)).2.1,
   ((redirection_binds_open_stream (demoEnv 0) "out.txt" { fds := stdTable, calls := [] }).2 3
      (by decide) (by decide)).2.1⟩

/-- C9 counterexample: in a process whose standard output is closed on entry,
the `open` of `processOutput("out.txt")` succeeds and returns descriptor 1, the
`dup2(1, 1)` succeeds, the function returns, and the final `close(1)` has closed
the file: standard output is closed on return.  Likewise `processInput("in.txt")`
with standard input closed on entry returns with standard input closed. -/
theorem redirection_onto_closed_stream :
    (sysOpen (demoEnv 0) "out.txt" [OFlag.O_WRONLY, OFlag.O_CREAT, OFlag.O_TRUNC] 0o644
        { fds := noStdoutTable, calls := [] }).1 = some 1 ∧
      (sysDup2 1 STDOUT_FILENO
        (sysOpen (demoEnv 0) "out.txt" [OFlag.O_WRONLY, OFlag.O_CREAT, OFlag.O_TRUNC] 0o644
          { fds := noStdoutTable, calls := [] }).2).1 = true ∧
      (processOutput (demoEnv 0) "out.txt" { fds := noStdoutTable, calls := [] }).returned
        = true ∧
      (processOutput (demoEnv 0) "out.txt" { fds := noStdoutTable, calls := [] }).fds
        STDOUT_FILENO = none ∧
      (sysOpen (demoEnv 0) "in.txt" [OFlag.O_RDONLY] 0
        { fds := noStdinTable, calls := [] }).1 = some 0 ∧
      (processInput (demoEnv 0) "in.txt" { fds := noStdinTable, calls := [] }).returned
        = true ∧
      (processInput (demoEnv 0) "in.txt" { fds := noStdinTable, calls := [] }).fds
        STDIN_FILENO = none := by
  decide

/-! ## `processCommand` -/

/-- What a blocking `waitpid` leaves alone, and what it logs. -/
theorem sysWaitpid_frame (env : Env) (pid : Pid) (status : Nat) (w : World) :
    (sysWaitpid env pid status w).2.backgroundPIDs = w.backgroundPIDs ∧
      (sysWaitpid env pid status w).2.children = w.children ∧
      (sysWaitpid env pid status w).2.shell.fds = w.shell.fds ∧
      (sysWaitpid env pid status w).2.cwd = w.cwd ∧
      ∃ r, (sysWaitpid env pid status w).2.shell.calls =
        w.shell.calls ++ [Syscall.waitpid pid r] := by
  unfold sysWaitpid
  split
  · split <;> simp [World.log, Proc.log]
  · simp [World.log, Proc.log]

/-- A fork that the kernel does not refuse. -/
theorem forkProcess_ok {env : Env} (background : Bool) (body : Proc → ChildEnd) {w : World}
    (h : env.forkFails w.nextPid = false) :
    forkProcess env background body w =
      Step.ok (w.nextPid + 1)
        { w with
          shell := w.shell.log (Syscall.fork (some (w.nextPid + 1)))
          children := w.children ++
            [{ pid := w.nextPid + 1, background := background,
               run := body { fds := w.shell.fds, calls := [] } }]
          running := w.running ++ [w.nextPid + 1]
          nextPid := w.nextPid + 1 } := by
  simp [forkProcess, sysFork, h]

/-- A fork that the kernel refuses ends the shell with `exit(2)`. -/
theorem forkProcess_fail {env : Env} (background : Bool) (body : Proc → ChildEnd) {w : World}
    (h : env.forkFails w.nextPid = true) :
    forkProcess env background body w =
      Step.halt (Halt.exit 2) (w.log (Syscall.fork none)) := by
  simp [forkProcess, sysFork, h]

/-- C5: for a command whose background flag is set and whose `fork` succeeds, the
parent side of `processCommand` issues no call besides the `fork` (in particular
no wait call), appends exactly the pid of the new child to `backgroundPIDs`,
does not terminate the shell, and returns; for a command whose background flag is
not set, `backgroundPIDs` is left unchanged however `processCommand` ends. -/
theorem processCommand_background_frame (env : Env) (cmd : Command) (w : World) :
    (cmd.isBackground = true → env.forkFails w.nextPid = false →
      (processCommand env cmd w).halted = none ∧
      (processCommand env cmd w).world.shell.calls =
        w.shell.calls ++ [Syscall.fork (some (w.nextPid + 1))] ∧
      (processCommand env cmd w).world.children.map (fun c => c.pid) =
        w.children.map (fun c => c.pid) ++ [w.nextPid + 1] ∧
      (processCommand env cmd w).world.backgroundPIDs =
        w.backgroundPIDs ++ [w.nextPid + 1]) ∧
    (cmd.isBackground = false →
      (processCommand env cmd w).world.backgroundPIDs = w.backgroundPIDs) := by
  constructor
  · intro hbg hfork
    simp [processCommand, forkProcess_ok _ _ hfork, hbg, Step.halted, Step.world, Proc.log]
  · intro hfg
    unfold processCommand
    by_cases hfork : env.forkFails w.nextPid = true
    · simp [forkProcess_fail _ _ hfork, Step.world, World.log]
    · have hfork1 : env.forkFails w.nextPid = false := by simpa using hfork
      rw [forkProcess_ok _ _ hfork1]
      simp only [hfg]
      generalize hw1 : ({ w with
          shell := w.shell.log (Syscall.fork (some (w.nextPid + 1)))
          children := w.children ++
            [{ pid := w.nextPid + 1, background := false,
               run := redirectAndExec env cmd { fds := w.shell.fds, calls := [] } }]
          running := w.running ++ [w.nextPid + 1]
          nextPid := w.nextPid + 1 } : World) = w1
      have hb : w1.backgroundPIDs = w.backgroundPIDs := by rw [← hw1]
      have hframe := (sysWaitpid_frame env (w.nextPid + 1) 0 w1).1
      rcases hs : sysWaitpid env (w.nextPid + 1) 0 w1 with ⟨⟨r, status⟩, w2⟩
      rw [hs] at hframe
      simp only at hframe
      by_cases hst : status > 1
      · simp [hst, Step.world, hframe, hb]
      · simp [hst, Step.world, hframe, hb]

/-- Witness for C5: `sleep 5 &` started from a fresh shell returns at once with
registry `[1]`, and `ls` in the foreground leaves the registry empty. -/
theorem processCommand_background_frame_witness :
    (processCommand (demoEnv 0)
        { simpleCommand ["sleep", "5"] with background := true }
        (startWorld stdTable "/home/user")).world.backgroundPIDs = [1] ∧
      (processCommand (demoEnv 0) (simpleCommand ["ls"])
        (startWorld stdTable "/home/user")).world.backgroundPIDs = [] :=
  ⟨((processCommand_background_frame (demoEnv 0)
        { simpleCommand ["sleep", "5"] with background := true }
        (startWorld stdTable "/home/user")).1 (by decide) (by decide)).2.2.2,
   (processCommand_background_frame (demoEnv 0) (simpleCommand ["ls"])
        (startWorld stdTable "/home/user")).2 (by decide)⟩

/-- The parent side of `processCommand` for a foreground command whose child
terminates normally with exit code `s < 256`: `waitpid` stores `s * 256`, so the
shell returns to the prompt loop only for `s = 0`; for every other `s` it calls
`exit(s * 256)`, and the exit code its parent sees is 0.  No earlier child has
the pid of the new one. -/
theorem processCommand_foreground_exit (env : Env) (cmd : Command) (w : World) (s : Nat)
    (hfg : cmd.isBackground = false) (hfork : env.forkFails w.nextPid = false)
    (hfresh : ∀ c, c ∈ w.children → c.pid ≠ w.nextPid + 1)
    (hterm : Child.termination env
      { pid := w.nextPid + 1, background := false,
        run := redirectAndExec env cmd { fds := w.shell.fds, calls := [] } } =
        Termination.exited s)
    (hs : s < 256) :
    (processCommand env cmd w).halted =
        (if s = 0 then none else some (Halt.exit (s * 256))) ∧
      (s ≠ 0 → (processCommand env cmd w).shellExitCode = some 0) := by
  have hnone : w.children.find? (fun c => decide (c.pid = w.nextPid + 1)) = none := by
    apply List.find?_eq_none.2
    intro c hc
    simpa using hfresh c hc
  have hmod : s % 256 = s := Nat.mod_eq_of_lt hs
  unfold processCommand
  rw [forkProcess_ok _ _ hfork]
  simp only [hfg, Bool.not_false, if_true, sysWaitpid, List.find?_append, hnone,
    Option.none_or, List.find?_cons_of_pos, decide_True, List.mem_append,
    List.mem_singleton, or_true, true_or, hterm, waitStatus, hmod]
  by_cases h0 : s = 0
  · subst h0
    simp [Step.halted]
  · have hgt : s * 256 > 1 := by omega
    simp [hgt, h0, Step.halted, Step.shellExitCode, exitCodeSeen]

/-- C1 at the failing input: the foreground command `nosuchprog`, for which `execvp`
fails.  The child exits with code 2, `waitpid` stores 512, `512 > 1`, the shell
calls `exit(512)`, and the exit code its parent sees is `512 % 256 = 0`, not 2. -/
theorem foreground_exec_failure_exits_zero :
    (processCommand (demoEnv 0) (simpleCommand ["nosuchprog"])
        (startWorld stdTable "/home/user")).world.children.map (Child.termination (demoEnv 0))
        = [Termination.exited 2] ∧
      (processCommand (demoEnv 0) (simpleCommand ["nosuchprog"])
        (startWorld stdTable "/home/user")).halted = some (Halt.exit 512) ∧
      (processCommand (demoEnv 0) (simpleCommand ["nosuchprog"])
        (startWorld stdTable "/home/user")).shellExitCode = some 0 := by
  decide

/-- C2 at the failing input: the foreground command `false`, which runs and exits
with code 1.  `waitpid` stores 256, `256 > 1`, and the shell calls `exit(256)`
instead of returning to the prompt loop. -/
theorem foreground_exit_one_ends_shell :
    (processCommand (demoEnv 1) (simpleCommand ["false"])
        (startWorld stdTable "/home/user")).world.children.map (Child.termination (demoEnv 1))
        = [Termination.exited 1] ∧
      (processCommand (demoEnv 1) (simpleCommand ["false"])
        (startWorld stdTable "/home/user")).halted = some (Halt.exit 256) ∧
      (processCommand (demoEnv 1) (simpleCommand ["false"])
        (startWorld stdTable "/home/user")).shellExitCode = some 0 := by
  decide

/-! ## `changeDirectory` -/

/-- C3 at the failing input: starting in `/home/user`, the lines `cd /tmp`,
`cd /definitely/missing`, `cd -`.  The failed `cd` sets `prevwd` to `/tmp`, so the
final `cd -` stays in `/tmp`; the directory in effect before the most recent
successful `cd` was `/home/user`.  Without the failed `cd` in between, `cd -`
does return to `/home/user`. -/
theorem cd_dash_after_failed_cd :
    (shellMain (demoEnv 0)
        [Line.commands [simpleCommand ["cd", "/tmp"]],
         Line.commands [simpleCommand ["cd", "/definitely/missing"]]]
        (startWorld stdTable "/home/user")).world.cwd = "/tmp" ∧
      (shellMain (demoEnv 0)
        [Line.commands [simpleCommand ["cd", "/tmp"]],
         Line.commands [simpleCommand ["cd", "/definitely/missing"]]]
        (startWorld stdTable "/home/user")).value = some "/tmp" ∧
      (shellMain (demoEnv 0)
        [Line.commands [simpleCommand ["cd", "/tmp"]],
         Line.commands [simpleCommand ["cd", "/definitely/missing"]],
         Line.commands [simpleCommand ["cd", "-"]]]
        (startWorld stdTable "/home/user")).world.cwd = "/tmp" ∧
      (shellMain (demoEnv 0)
        [Line.commands [simpleCommand ["cd", "/tmp"]],
         Line.commands [simpleCommand ["cd", "-"]]]
        (startWorld stdTable "/home/user")).world.cwd = "/home/user" := by
  decide

/-! ## The registry holds exactly the background children launched -/

theorem backgroundPidsOf_append (cs ds : List Child) :
    backgroundPidsOf (cs ++ ds) = backgroundPidsOf cs ++ backgroundPidsOf ds := by
  simp [backgroundPidsOf]

/-- Foreground children contribute nothing to the registry. -/
theorem backgroundPidsOf_foreground {cs : List Child}
    (h : ∀ c ∈ cs, c.background = false) : backgroundPidsOf cs = [] := by
  induction cs with
  | nil => rfl
  | cons c cs ih =>
    have hc : c.background = false := h c (by simp)
    have hcs : backgroundPidsOf cs = [] := ih (fun d hd => h d (List.mem_cons_of_mem _ hd))
    simp only [backgroundPidsOf] at hcs ⊢
    simp [List.filter_cons, hc, hcs]

theorem mem_backgroundPidsOf (cs : List Child) (pid : Pid) :
    pid ∈ backgroundPidsOf cs ↔ ∃ c, c ∈ cs ∧ c.background = true ∧ c.pid = pid := by
  simp [backgroundPidsOf, and_assoc]

theorem Extends.refl (w : World) : Extends w w :=
  ⟨[], by simp, by simp [backgroundPidsOf]⟩

theorem Extends.trans {w1 w2 w3 : World} (h12 : Extends w1 w2) (h23 : Extends w2 w3) :
    Extends w1 w3 := by
  obtain ⟨cs, hc, hp⟩ := h12
  obtain ⟨ds, hc', hp'⟩ := h23
  exact ⟨cs ++ ds, by simp [hc', hc], by simp [hp', hp, backgroundPidsOf_append]⟩

/-- A state with the same children and registry extends the first one. -/
theorem Extends.of_eq {w1 w2 : World} (hc : w2.children = w1.children)
    (hp : w2.backgroundPIDs = w1.backgroundPIDs) : Extends w1 w2 :=
  ⟨[], by simp [hc], by simp [hp, backgroundPidsOf]⟩

/-- New foreground children alone leave the registry as it is. -/
theorem Extends.of_foreground {w1 w2 : World} {cs : List Child}
    (hc : w2.children = w1.children ++ cs) (hfg : ∀ c ∈ cs, c.background = false)
    (hp : w2.backgroundPIDs = w1.backgroundPIDs) : Extends w1 w2 :=
  ⟨cs, hc, by rw [hp, backgroundPidsOf_foreground hfg, List.append_nil]⟩

/-- A registry that held exactly the background children still does so in every
state that extends the first one. -/
theorem Extends.exact {w1 w2 : World} (h : Extends w1 w2)
    (hreg : w1.backgroundPIDs = backgroundPidsOf w1.children) :
    w2.backgroundPIDs = backgroundPidsOf w2.children := by
  obtain ⟨cs, hc, hp⟩ := h
  rw [hp, hc, backgroundPidsOf_append, hreg]

theorem sysWaitAnyNoHang_frame (w : World) :
    (sysWaitAnyNoHang w).2.backgroundPIDs = w.backgroundPIDs ∧
      (sysWaitAnyNoHang w).2.children = w.children ∧
      (sysWaitAnyNoHang w).2.shell.fds = w.shell.fds ∧
      (sysWaitAnyNoHang w).2.zombies = w.zombies.tail := by
  unfold sysWaitAnyNoHang
  split
  · simp_all [Proc.log]
  · split <;> simp_all [World.log, Proc.log]

theorem reapLoop_frame (fuel : Nat) (w : World) :
    (reapLoop fuel w).backgroundPIDs = w.backgroundPIDs ∧
      (reapLoop fuel w).children = w.children ∧
      (reapLoop fuel w).shell.fds = w.shell.fds := by
  induction fuel generalizing w with
  | zero => simp [reapLoop]
  | succ n ih =>
    have hf := sysWaitAnyNoHang_frame w
    unfold reapLoop
    rcases hs : sysWaitAnyNoHang w with ⟨r, w1⟩
    rw [hs] at hf
    simp only at hf
    cases r with
    | reaped pid =>
      simp only
      have h1 := ih w1
      exact ⟨h1.1.trans hf.1, h1.2.1.trans hf.2.1, h1.2.2.trans hf.2.2.1⟩
    | noneReady => exact ⟨hf.1, hf.2.1, hf.2.2.1⟩
    | noChildren => exact ⟨hf.1, hf.2.1, hf.2.2.1⟩

/-- The loop of `reapBackgroundPIDs` leaves through its condition, not through the
bound on the iterations: with more iterations than terminated children, the
last call made is a wait that found no terminated child. -/
theorem reapLoop_done (fuel : Nat) (w : World) (h : w.zombies.length < fuel) :
    (reapLoop fuel w).zombies = [] ∧
      ∃ r, (reapLoop fuel w).shell.calls.getLast? = some (Syscall.waitAnyNoHang r) ∧
        ∀ pid, r ≠ WaitRet.reaped pid := by
  induction fuel generalizing w with
  | zero => omega
  | succ n ih =>
    unfold reapLoop
    cases hz : w.zombies with
    | nil =>
      by_cases hr : w.running.isEmpty = true
      · simp only [sysWaitAnyNoHang, hz, hr, if_true, World.log, Proc.log]
        exact ⟨trivial, WaitRet.noChildren, by simp, by simp⟩
      · have hr1 : w.running.isEmpty = false := by simpa using hr
        simp only [sysWaitAnyNoHang, hz, hr1, World.log, Proc.log]
        exact ⟨by simp, WaitRet.noneReady, by simp, by simp⟩
    | cons z zs =>
      simp only [sysWaitAnyNoHang, hz]
      apply ih
      simp only
      rw [hz] at h
      simp at h
      omega

theorem reapBackgroundPIDs_frame (w : World) :
    (reapBackgroundPIDs w).backgroundPIDs = w.backgroundPIDs ∧
      (reapBackgroundPIDs w).children = w.children ∧
      (reapBackgroundPIDs w).shell.fds = w.shell.fds :=
  reapLoop_frame _ w

theorem childExits_frame (pid : Pid) (w : World) :
    (childExits pid w).backgroundPIDs = w.backgroundPIDs ∧
      (childExits pid w).children = w.children := by
  unfold childExits
  split <;> simp

theorem createPipes_frame (env : Env) (m : Nat) (w : World) :
    (createPipes env m w).world.children = w.children ∧
      (createPipes env m w).world.backgroundPIDs = w.backgroundPIDs := by
  induction m generalizing w with
  | zero => simp [createPipes, Step.world]
  | succ m ih =>
    unfold createPipes
    rcases hs : sysPipe env w.nextPipe w.shell with ⟨r, p1⟩
    cases r with
    | none => simp [Step.world]
    | some pr =>
      simp only
      have h := ih { w with shell := p1, nextPipe := w.nextPipe + 1 }
      rcases hc : createPipes env m { w with shell := p1, nextPipe := w.nextPipe + 1 }
        with ⟨prs, w2⟩ | ⟨hh, w2⟩
      · rw [hc] at h
        simpa [Step.world] using h
      · rw [hc] at h
        simpa [Step.world] using h

theorem forkStages_extends (env : Env) (pipes : List (Fd × Fd)) (n i : Nat)
    (cmds : List Command) (w : World) :
    ∃ cs, (forkStages env pipes n i cmds w).world.children = w.children ++ cs ∧
      (∀ c ∈ cs, c.background = false) ∧
      (forkStages env pipes n i cmds w).world.backgroundPIDs = w.backgroundPIDs := by
  induction cmds generalizing i w with
  | nil => exact ⟨[], by simp [forkStages, Step.world]⟩
  | cons cmd cmds ih =>
    unfold forkStages
    by_cases hfork : env.forkFails w.nextPid = true
    · rw [forkProcess_fail _ _ hfork]
      exact ⟨[], by simp [Step.world, World.log]⟩
    · have hfork1 : env.forkFails w.nextPid = false := by simpa using hfork
      rw [forkProcess_ok _ _ hfork1]
      simp only
      generalize hw1 : ({ w with
          shell := w.shell.log (Syscall.fork (some (w.nextPid + 1)))
          children := w.children ++
            [{ pid := w.nextPid + 1, background := false,
               run := pipeChild env pipes n i cmd { fds := w.shell.fds, calls := [] } }]
          running := w.running ++ [w.nextPid + 1]
          nextPid := w.nextPid + 1 } : World) = w1
      obtain ⟨cs, hc, hb, hp⟩ := ih (i + 1) w1
      have hc1 : w1.children = w.children ++
            [{ pid := w.nextPid + 1, background := false,
               run := pipeChild env pipes n i cmd { fds := w.shell.fds, calls := [] } }] := by
        rw [← hw1]
      have hp1 : w1.backgroundPIDs = w.backgroundPIDs := by rw [← hw1]
      refine ⟨Child.mk (w.nextPid + 1) false
          (pipeChild env pipes n i cmd { fds := w.shell.fds, calls := [] }) :: cs, ?_, ?_, ?_⟩
      · rcases hf : forkStages env pipes n (i + 1) cmds w1 with ⟨pids, w2⟩ | ⟨hh, w2⟩
        · rw [hf] at hc
          simpa [Step.world, hc1] using hc
        · rw [hf] at hc
          simpa [Step.world, hc1] using hc
      · intro c hcmem
        rcases List.mem_cons.1 hcmem with h | h
        · rw [h]
        · exact hb c h
      · rcases hf : forkStages env pipes n (i + 1) cmds w1 with ⟨pids, w2⟩ | ⟨hh, w2⟩
        · rw [hf] at hp
          simpa [Step.world, hp1] using hp
        · rw [hf] at hp
          simpa [Step.world, hp1] using hp

theorem waitAll_frame (env : Env) (pids : List Pid) (w : World) :
    (waitAll env pids w).backgroundPIDs = w.backgroundPIDs ∧
      (waitAll env pids w).children = w.children ∧
      (waitAll env pids w).shell.fds = w.shell.fds := by
  induction pids generalizing w with
  | nil => simp [waitAll]
  | cons pid pids ih =>
    unfold waitAll
    have h := ih (sysWaitpid env pid 0 w).2
    have hf := sysWaitpid_frame env pid 0 w
    exact ⟨h.1.trans hf.1, h.2.1.trans hf.2.1, h.2.2.trans hf.2.2.1⟩

theorem processPipes_extends (env : Env) (cmds : List Command) (w : World) :
    Extends w (processPipes env cmds w).world := by
  unfold processPipes
  by_cases hlen : cmds.length = 0
  · simp only [hlen, if_true, Step.world]
    exact Extends.refl w
  · simp only [hlen, if_false]
    have hcp := createPipes_frame env (cmds.length - 1) w
    rcases hc : createPipes env (cmds.length - 1) w with ⟨pipes, w1⟩ | ⟨hh, w1⟩
    · rw [hc] at hcp
      simp only [Step.world] at hcp
      simp only
      obtain ⟨cs, hch, hbg, hp⟩ := forkStages_extends env pipes cmds.length 0 cmds w1
      rcases hf : forkStages env pipes cmds.length 0 cmds w1 with ⟨pids, w2⟩ | ⟨hh, w2⟩
      · rw [hf] at hch hp
        simp only [Step.world] at hch hp ⊢
        have hwa := waitAll_frame env pids { w2 with shell := closePipes pipes w2.shell }
        refine @Extends.of_foreground w _ cs ?_ hbg ?_
        · rw [hwa.2.1]
          simp only
          rw [hch, hcp.1]
        · rw [hwa.1]
          simp only
          rw [hp, hcp.2]
      · rw [hf] at hch hp
        simp only [Step.world] at hch hp ⊢
        refine @Extends.of_foreground w _ cs ?_ hbg ?_
        · rw [hch, hcp.1]
        · rw [hp, hcp.2]
    · rw [hc] at hcp
      simp only [Step.world] at hcp ⊢
      exact Extends.of_eq hcp.1 hcp.2

theorem processCommand_extends (env : Env) (cmd : Command) (w : World) :
    Extends w (processCommand env cmd w).world := by
  unfold processCommand
  by_cases hfork : env.forkFails w.nextPid = true
  · rw [forkProcess_fail _ _ hfork]
    simp only [Step.world]
    exact Extends.of_eq rfl rfl
  · have hfork1 : env.forkFails w.nextPid = false := by simpa using hfork
    rw [forkProcess_ok _ _ hfork1]
    simp only
    cases hbg : cmd.isBackground with
    | true =>
      simp only [Bool.not_true, Step.world]
      exact ⟨_, rfl, by simp [backgroundPidsOf]⟩
    | false =>
      simp only [Bool.not_false, if_true]
      generalize hw1 : ({ w with
          shell := w.shell.log (Syscall.fork (some (w.nextPid + 1)))
          children := w.children ++
            [{ pid := w.nextPid + 1, background := false,
               run := redirectAndExec env cmd { fds := w.shell.fds, calls := [] } }]
          running := w.running ++ [w.nextPid + 1]
          nextPid := w.nextPid + 1 } : World) = w1
      have hc1 : w1.children = w.children ++
            [{ pid := w.nextPid + 1, background := false,
               run := redirectAndExec env cmd { fds := w.shell.fds, calls := [] } }] := by
        rw [← hw1]
      have hp1 : w1.backgroundPIDs = w.backgroundPIDs := by rw [← hw1]
      have hframe := sysWaitpid_frame env (w.nextPid + 1) 0 w1
      rcases hs : sysWaitpid env (w.nextPid + 1) 0 w1 with ⟨⟨r, status⟩, w2⟩
      rw [hs] at hframe
      simp only at hframe
      have hext : Extends w w2 :=
        Extends.of_foreground (hframe.2.1.trans hc1)
          (by
            intro c hc
            rw [List.mem_singleton.1 hc])
          (by rw [hframe.1, hp1])
      by_cases hst : status > 1
      · simpa [hst, Step.world] using hext
      · simpa [hst, Step.world] using hext

theorem changeDirectory_extends (env : Env) (cmds : List Command) (prevwd : String)
    (w : World) : Extends w (changeDirectory env cmds prevwd w).world := by
  unfold changeDirectory
  split
  · exact Extends.refl w
  · split
    · exact Extends.refl w
    · simp only [Step.world, sysChdir]
      split <;> exact Extends.of_eq rfl rfl

theorem dispatch_extends (env : Env) (line : Line) (prevwd : String) (w : World) :
    Extends w (dispatch env line prevwd w).world := by
  cases line with
  | exit => exact Extends.refl w
  | invalid => exact Extends.refl w
  | commands cs =>
    unfold dispatch
    simp only
    cases hcs : cs.head? with
    | none => exact Extends.refl w
    | some c0 =>
      simp only
      cases ha : c0.args.head? with
      | none => exact Extends.refl w
      | some a0 =>
        simp only
        by_cases hcd : a0 = "cd"
        · simp only [hcd, if_true]
          exact changeDirectory_extends env _ prevwd w
        · simp only [hcd, if_false]
          by_cases hlen : cs.length = 1
          · simp only [hlen, if_true]
            have h := processCommand_extends env c0 w
            rcases hc : processCommand env c0 w with ⟨u, w1⟩ | ⟨hh, w1⟩
            · rw [hc] at h
              simpa [Step.world] using h
            · rw [hc] at h
              simpa [Step.world] using h
          · simp only [hlen, if_false]
            have h := processPipes_extends env cs w
            rcases hc : processPipes env cs w with ⟨u, w1⟩ | ⟨hh, w1⟩
            · rw [hc] at h
              simpa [Step.world] using h
            · rw [hc] at h
              simpa [Step.world] using h

theorem runActions_extends (env : Env) (acts : List Action) (prevwd : String) (w : World) :
    Extends w (runActions env acts prevwd w).world := by
  induction acts generalizing prevwd w with
  | nil => exact Extends.refl w
  | cons a acts ih =>
    cases a with
    | dispatch l =>
      unfold runActions
      have h := dispatch_extends env l prevwd w
      rcases hd : dispatch env l prevwd w with ⟨prevwd1, w1⟩ | ⟨hh, w1⟩
      · rw [hd] at h
        exact Extends.trans h (ih prevwd1 w1)
      · rw [hd] at h
        exact h
    | reap =>
      unfold runActions
      have hf := reapBackgroundPIDs_frame w
      exact Extends.trans (Extends.of_eq hf.2.1 hf.1) (ih prevwd _)
    | childExits pid =>
      unfold runActions
      have hf := childExits_frame pid w
      exact Extends.trans (Extends.of_eq hf.2 hf.1) (ih prevwd _)

/-- C4 (as amended): `backgroundPIDs` holds exactly the pids of the background
children launched so far, in launch order, whether or not their termination has
been observed.  `reapBackgroundPIDs` leaves the registry unchanged; any sequence
of dispatches, `reapBackgroundPIDs` calls and child terminations appends to the
registry exactly the pids of the background children it launches; and when the
registry held exactly the background children before the sequence, it holds
exactly the background children launched up to its end: a pid is in it if and
only if it is the pid of a background child that was launched. -/
theorem registry_exactly_launched (env : Env) (acts : List Action) (prevwd : String)
    (w : World) :
    (reapBackgroundPIDs w).backgroundPIDs = w.backgroundPIDs ∧
      (∃ cs, (runActions env acts prevwd w).world.children = w.children ++ cs ∧
        (runActions env acts prevwd w).world.backgroundPIDs =
          w.backgroundPIDs ++ backgroundPidsOf cs) ∧
      (w.backgroundPIDs = backgroundPidsOf w.children →
        (runActions env acts prevwd w).world.backgroundPIDs =
          backgroundPidsOf (runActions env acts prevwd w).world.children ∧
        ∀ pid, pid ∈ (runActions env acts prevwd w).world.backgroundPIDs ↔
          ∃ c, c ∈ (runActions env acts prevwd w).world.children ∧
            c.background = true ∧ c.pid = pid) := by
  refine ⟨(reapBackgroundPIDs_frame w).1, runActions_extends env acts prevwd w, ?_⟩
  intro hreg
  have hexact := (runActions_extends env acts prevwd w).exact hreg
  refine ⟨hexact, ?_⟩
  intro pid
  rw [hexact]
  exact mem_backgroundPidsOf _ pid

/-- Witness for C4 (as amended): from a fresh shell, after `sleep 0 &`, the
foreground command `ls`, the termination of child 1 and a `reapBackgroundPIDs`,
the registry holds exactly the background child that was launched. -/
theorem registry_exactly_launched_witness :
    (startWorld stdTable "/home/user").backgroundPIDs =
        backgroundPidsOf (startWorld stdTable "/home/user").children ∧
      (runActions (demoEnv 0)
        [Action.dispatch
          (Line.commands [{ simpleCommand ["sleep", "0"] with background := true }]),
         Action.dispatch (Line.commands [simpleCommand ["ls"]]),
         Action.childExits 1, Action.reap]
        "/home/user" (startWorld stdTable "/home/user")).world.backgroundPIDs =
        backgroundPidsOf (runActions (demoEnv 0)
          [Action.dispatch
            (Line.commands [{ simpleCommand ["sleep", "0"] with background := true }]),
           Action.dispatch (Line.commands [simpleCommand ["ls"]]),
           Action.childExits 1, Action.reap]
          "/home/user" (startWorld stdTable "/home/user")).world.children :=
  ⟨rfl,
   ((registry_exactly_launched (demoEnv 0)
      [Action.dispatch
        (Line.commands [{ simpleCommand ["sleep", "0"] with background := true }]),
       Action.dispatch (Line.commands [simpleCommand ["ls"]]),
       Action.childExits 1, Action.reap]
      "/home/user" (startWorld stdTable "/home/user")).2.2 rfl).1⟩

/-- C4 counterexample: from a fresh shell, `sleep 0 &` launches child 1, the child
terminates, and `reapBackgroundPIDs` runs.  Its non-blocking wait reports pid 1 as
terminated, no terminated child is left unreaped, and pid 1 is still in
`backgroundPIDs`. -/
theorem reaped_pid_stays_registered :
    Syscall.waitAnyNoHang (WaitRet.reaped 1) ∈
        (runActions (demoEnv 0)
          [Action.dispatch
            (Line.commands [{ simpleCommand ["sleep", "0"] with background := true }]),
           Action.childExits 1, Action.reap]
          "/home/user" (startWorld stdTable "/home/user")).world.shell.calls ∧
      (runActions (demoEnv 0)
          [Action.dispatch
            (Line.commands [{ simpleCommand ["sleep", "0"] with background := true }]),
           Action.childExits 1, Action.reap]
          "/home/user" (startWorld stdTable "/home/user")).world.zombies = [] ∧
      (runActions (demoEnv 0)
          [Action.dispatch
            (Line.commands [{ simpleCommand ["sleep", "0"] with background := true }]),
           Action.childExits 1, Action.reap]
          "/home/user" (startWorld stdTable "/home/user")).world.backgroundPIDs = [1] := by
  decide

/-! ## Pipes -/

/-- The allocator finds a descriptor when one below the limit is closed. -/
theorem lowestFree_ne_none {n : Nat} {t : FdTable} {fd : Fd} (hlt : fd < n)
    (hfree : t fd = none) : lowestFree n t ≠ none := by
  intro h
  have h1 := List.find?_eq_none.1 h fd (List.mem_range.2 hlt)
  simp [hfree] at h1

/-- A descriptor handed out by the allocator is below the limit. -/
theorem lowestFree_lt {n : Nat} {t : FdTable} {fd : Fd} (h : lowestFree n t = some fd) :
    fd < n :=
  List.mem_range.1 (List.mem_of_find?_eq_some h)

/-- A successful `pipe` call: both descriptors were closed and are below the
limit, they differ, and they now refer to the two ends of the new pipe. -/
theorem sysPipe_some {env : Env} {k : Nat} {p p1 : Proc} {r wr : Fd}
    (h : sysPipe env k p = (some (r, wr), p1)) :
    p.fds r = none ∧ p.fds wr = none ∧ r ≠ wr ∧ r < env.nofile ∧ wr < env.nofile ∧
      p1.fds = setFd (setFd p.fds r (some (Desc.pipeRead k))) wr (some (Desc.pipeWrite k)) ∧
      p1.calls = p.calls ++ [Syscall.pipe (some (r, wr))] := by
  unfold sysPipe at h
  cases h1 : lowestFree env.nofile p.fds with
  | none => simp [h1] at h
  | some r1 =>
    simp only [h1] at h
    cases h2 : lowestFree env.nofile (setFd p.fds r1 (some (Desc.pipeRead k))) with
    | none => simp [h2] at h
    | some w1 =>
      simp only [h2] at h
      simp only [Prod.mk.injEq, Option.some.injEq] at h
      obtain ⟨⟨hr, hw⟩, hp⟩ := h
      subst hr hw
      have hc1 := lowestFree_closed h1
      have hc2 := lowestFree_closed h2
      have hne : w1 ≠ r1 := by
        intro heq
        rw [heq, setFd_same] at hc2
        cases hc2
      rw [setFd_other _ _ _ _ hne] at hc2
      refine ⟨hc1, hc2, fun heq => hne heq.symm, lowestFree_lt h1, lowestFree_lt h2, ?_, ?_⟩
      · rw [← hp]
      · rw [← hp]

theorem createPipes_of_not_halted {env : Env} {m : Nat} {w : World}
    (h : (createPipes env m w).halted = none) :
    ∃ ps w1, createPipes env m w = Step.ok ps w1 := by
  cases hc : createPipes env m w with
  | ok ps w1 => exact ⟨ps, w1, rfl⟩
  | halt hh w1 => simp [hc, Step.halted] at h

/-- The state after the first loop of `processPipes`, when every `pipe` call
succeeded. -/
theorem createPipes_ok {env : Env} {m : Nat} {w : World} {ps : List (Fd × Fd)} {w1 : World}
    (h : createPipes env m w = Step.ok ps w1) :
    ps.length = m ∧ PipesOK env.nofile w.shell.fds w.nextPipe ps w1.shell.fds ∧
      w1.shell.calls = w.shell.calls ++ ps.map (fun pr => Syscall.pipe (some pr)) ∧
      w1.children = w.children ∧ w1.backgroundPIDs = w.backgroundPIDs ∧
      w1.running = w.running ∧ w1.nextPid = w.nextPid := by
  induction m generalizing w ps w1 with
  | zero =>
    simp only [createPipes, Step.ok.injEq] at h
    obtain ⟨hps, hw⟩ := h
    subst hps hw
    exact ⟨rfl, ⟨fun _ _ => rfl, by simp [pipeFds], by simp, by simp [pipeFds]⟩,
      by simp, rfl, rfl, rfl, rfl⟩
  | succ m ih =>
    unfold createPipes at h
    rcases hs : sysPipe env w.nextPipe w.shell with ⟨r, p1⟩
    rw [hs] at h
    cases r with
    | none => simp at h
    | some pr =>
      obtain ⟨r, wr⟩ := pr
      simp only at h
      rcases hc : createPipes env m { w with shell := p1, nextPipe := w.nextPipe + 1 }
        with ⟨prs, w2⟩ | ⟨hh, w2⟩
      · rw [hc] at h
        simp only [Step.ok.injEq] at h
        obtain ⟨hps, hw⟩ := h
        subst hps hw
        obtain ⟨hlen, hok, hcalls, hch, hbg, hrun, hnp⟩ := ih hc
        simp only at hok hcalls hch hbg hrun hnp
        obtain ⟨hr0, hw0, hne, hrlt, hwlt, hfds, hpcalls⟩ := sysPipe_some hs
        have hp1r : p1.fds r = some (Desc.pipeRead w.nextPipe) := by
          rw [hfds, setFd_other _ _ _ _ hne, setFd_same]
        have hp1w : p1.fds wr = some (Desc.pipeWrite w.nextPipe) := by
          rw [hfds, setFd_same]
        have hrnot : r ∉ pipeFds prs := by
          intro hmem
          rw [hok.fresh r hmem] at hp1r
          cases hp1r
        have hwnot : wr ∉ pipeFds prs := by
          intro hmem
          rw [hok.fresh wr hmem] at hp1w
          cases hp1w
        refine ⟨by simp [hlen], ⟨?_, ?_, ?_, ?_⟩, ?_, hch, hbg, hrun, hnp⟩
        · intro fd hfd
          simp only [pipeFds, List.mem_cons, not_or] at hfd
          rw [hok.outside fd hfd.2.2, hfds, setFd_other _ _ _ _ hfd.2.1,
            setFd_other _ _ _ _ hfd.1]
        · intro fd hfd
          simp only [pipeFds, List.mem_cons] at hfd
          rcases hfd with h1 | h1 | h1
          · rw [h1]; exact hr0
          · rw [h1]; exact hw0
          · have hnone := hok.fresh fd h1
            have hfr : fd ≠ r := by
              intro heq
              rw [heq] at h1
              exact hrnot h1
            have hfw : fd ≠ wr := by
              intro heq
              rw [heq] at h1
              exact hwnot h1
            rw [hfds, setFd_other _ _ _ _ hfw, setFd_other _ _ _ _ hfr] at hnone
            exact hnone
        · intro j hj
          cases j with
          | zero =>
            simp only [List.getD_cons_zero, Nat.add_zero]
            rw [hok.outside r hrnot, hok.outside wr hwnot]
            exact ⟨hp1r, hp1w⟩
          | succ j =>
            simp only [List.getD_cons_succ]
            have hj1 : j < prs.length := by
              simp only [List.length_cons] at hj
              omega
            have he := hok.ends j hj1
            have harith : w.nextPipe + 1 + j = w.nextPipe + (j + 1) := by omega
            rw [harith] at he
            exact he
        · intro fd hfd
          simp only [pipeFds, List.mem_cons] at hfd
          rcases hfd with h1 | h1 | h1
          · rw [h1]; exact hrlt
          · rw [h1]; exact hwlt
          · exact hok.below fd h1
        · rw [hcalls, hpcalls]
          simp
      · rw [hc] at h
        simp at h

/-- The descriptor table after the loop that closes every pipe descriptor. -/
theorem closePipes_fds (ps : List (Fd × Fd)) (p : Proc) (fd : Fd) :
    (closePipes ps p).fds fd = if fd ∈ pipeFds ps then none else p.fds fd := by
  induction ps generalizing p with
  | nil => simp [closePipes, pipeFds]
  | cons pr prs ih =>
    unfold closePipes
    rw [ih]
    by_cases hmem : fd ∈ pipeFds prs
    · simp [pipeFds, hmem]
    · by_cases h1 : fd = pr.1
      · by_cases h2 : fd = pr.2
        · simp [pipeFds, hmem, h1, sysClose, setFd]
        · simp [pipeFds, hmem, h1, sysClose, setFd]
      · by_cases h2 : fd = pr.2
        · simp [pipeFds, hmem, h2, sysClose, setFd]
        · simp [pipeFds, hmem, h1, h2, sysClose, setFd]

/-- The calls made by the loop that closes every pipe descriptor. -/
theorem closePipes_calls (ps : List (Fd × Fd)) (p : Proc) :
    (closePipes ps p).calls = p.calls ++ (pipeFds ps).map Syscall.close := by
  induction ps generalizing p with
  | nil => simp [closePipes, pipeFds]
  | cons pr prs ih =>
    unfold closePipes
    rw [ih]
    simp [pipeFds, sysClose]

/-- Creating the pipes and closing them again restores the descriptor table. -/
theorem closePipes_restores {nofile : Nat} {t0 : FdTable} {k0 : Nat} {ps : List (Fd × Fd)}
    {p : Proc} (hok : PipesOK nofile t0 k0 ps p.fds) :
    (closePipes ps p).fds = t0 := by
  funext fd
  rw [closePipes_fds]
  by_cases hmem : fd ∈ pipeFds ps
  · simp [hmem, hok.fresh fd hmem]
  · simp [hmem, hok.outside fd hmem]

theorem stageChildren_pids (env : Env) (pipes : List (Fd × Fd)) (n : Nat) (t : FdTable)
    (i k : Nat) (cmds : List Command) :
    (stageChildren env pipes n t i k cmds).map (fun c => c.pid) =
      List.range' (k + 1) cmds.length := by
  induction cmds generalizing i k with
  | nil => simp [stageChildren]
  | cons cmd cmds ih => simp [stageChildren, ih, List.range'_succ]

theorem stageChildren_get (env : Env) (pipes : List (Fd × Fd)) (n : Nat) (t : FdTable)
    (i k : Nat) (cmds : List Command) (j : Nat) (cmd : Command) (h : cmds[j]? = some cmd) :
    (stageChildren env pipes n t i k cmds)[j]? =
      some { pid := k + 1 + j, background := false,
             run := pipeChild env pipes n (i + j) cmd { fds := t, calls := [] } } := by
  induction cmds generalizing i k j with
  | nil => simp at h
  | cons c cmds ih =>
    cases j with
    | zero =>
      simp only [List.getElem?_cons_zero, Option.some.injEq] at h
      subst h
      simp [stageChildren]
    | succ j =>
      simp only [List.getElem?_cons_succ] at h
      simp only [stageChildren, List.getElem?_cons_succ]
      rw [ih (i + 1) (k + 1) j h]
      have h1 : k + 1 + 1 + j = k + 1 + (j + 1) := by omega
      have h2 : i + 1 + j = i + (j + 1) := by omega
      rw [h1, h2]

/-- The state after the second loop of `processPipes`, when every fork succeeds. -/
theorem forkStages_ok (env : Env) (pipes : List (Fd × Fd)) (n i : Nat)
    (cmds : List Command) (w : World)
    (hforks : ∀ k, k < cmds.length → env.forkFails (w.nextPid + k) = false) :
    ∃ w', forkStages env pipes n i cmds w =
        Step.ok (List.range' (w.nextPid + 1) cmds.length) w' ∧
      w'.shell.fds = w.shell.fds ∧
      w'.shell.calls = w.shell.calls ++
        (List.range' (w.nextPid + 1) cmds.length).map (fun pid => Syscall.fork (some pid)) ∧
      w'.children = w.children ++ stageChildren env pipes n w.shell.fds i w.nextPid cmds ∧
      w'.running = w.running ++ List.range' (w.nextPid + 1) cmds.length ∧
      w'.backgroundPIDs = w.backgroundPIDs := by
  induction cmds generalizing i w with
  | nil => exact ⟨w, by simp [forkStages, stageChildren]⟩
  | cons cmd cmds ih =>
    have hf0 : env.forkFails w.nextPid = false := by
      have := hforks 0 (by simp)
      simpa using this
    unfold forkStages
    rw [forkProcess_ok _ _ hf0]
    simp only
    generalize hw1 : ({ w with
        shell := w.shell.log (Syscall.fork (some (w.nextPid + 1)))
        children := w.children ++
          [{ pid := w.nextPid + 1, background := false,
             run := pipeChild env pipes n i cmd { fds := w.shell.fds, calls := [] } }]
        running := w.running ++ [w.nextPid + 1]
        nextPid := w.nextPid + 1 } : World) = w1
    have hnp : w1.nextPid = w.nextPid + 1 := by rw [← hw1]
    have hfds : w1.shell.fds = w.shell.fds := by rw [← hw1]; rfl
    have hcalls : w1.shell.calls = w.shell.calls ++ [Syscall.fork (some (w.nextPid + 1))] := by
      rw [← hw1]; rfl
    have hch : w1.children = w.children ++
          [{ pid := w.nextPid + 1, background := false,
             run := pipeChild env pipes n i cmd { fds := w.shell.fds, calls := [] } }] := by
      rw [← hw1]
    have hrun : w1.running = w.running ++ [w.nextPid + 1] := by rw [← hw1]
    have hbg : w1.backgroundPIDs = w.backgroundPIDs := by rw [← hw1]
    have hforks1 : ∀ k, k < cmds.length → env.forkFails (w1.nextPid + k) = false := by
      intro k hk
      have := hforks (k + 1) (by simp; omega)
      rw [hnp]
      have harith : w.nextPid + 1 + k = w.nextPid + (k + 1) := by omega
      rw [harith]
      exact this
    obtain ⟨w', hfs, h1, h2, h3, h4, h5⟩ := ih (i + 1) w1 hforks1
    rw [hfs]
    refine ⟨w', ?_, ?_, ?_, ?_, ?_, ?_⟩
    · simp [hnp, List.range'_succ]
    · rw [h1, hfds]
    · rw [h2, hcalls, hnp]
      simp [List.range'_succ]
    · rw [h3, hch, hfds, hnp]
      simp [stageChildren]
    · rw [h4, hrun, hnp]
      simp [List.range'_succ]
    · rw [h5, hbg]

/-- A blocking wait for an unreaped child succeeds and reaps it. -/
theorem sysWaitpid_ok (env : Env) (pid : Pid) (status : Nat) (w : World)
    (hrun : pid ∈ w.running) (hch : ∃ c ∈ w.children, c.pid = pid) :
    (sysWaitpid env pid status w).2.shell.calls =
        w.shell.calls ++ [Syscall.waitpid pid (some pid)] ∧
      (sysWaitpid env pid status w).2.running = w.running.erase pid ∧
      (sysWaitpid env pid status w).2.children = w.children := by
  unfold sysWaitpid
  cases hf : w.children.find? (fun c => decide (c.pid = pid)) with
  | none =>
    obtain ⟨c, hc, hpid⟩ := hch
    have := List.find?_eq_none.1 hf c hc
    simp [hpid] at this
  | some c => simp [hrun, Proc.log]

/-- The calls of the last loop of `processPipes`: one successful blocking wait per
pid, in the order of the list. -/
theorem waitAll_calls (env : Env) (pids : List Pid) (w : World) (hnd : pids.Nodup)
    (hrun : ∀ pid ∈ pids, pid ∈ w.running)
    (hch : ∀ pid ∈ pids, ∃ c ∈ w.children, c.pid = pid) :
    (waitAll env pids w).shell.calls =
      w.shell.calls ++ pids.map (fun pid => Syscall.waitpid pid (some pid)) := by
  induction pids generalizing w with
  | nil => simp [waitAll]
  | cons pid pids ih =>
    unfold waitAll
    obtain ⟨hcalls, hrunning, hchildren⟩ :=
      sysWaitpid_ok env pid 0 w (hrun pid (by simp)) (hch pid (by simp))
    have hnd1 := List.nodup_cons.1 hnd
    rw [ih (sysWaitpid env pid 0 w).2 hnd1.2 ?_ ?_, hcalls]
    · simp
    · intro q hq
      rw [hrunning]
      have hne : q ≠ pid := by
        intro heq
        rw [heq] at hq
        exact hnd1.1 hq
      exact (List.mem_erase_of_ne hne).2 (hrun q (List.mem_cons_of_mem _ hq))
    · intro q hq
      rw [hchildren]
      exact hch q (List.mem_cons_of_mem _ hq)

/-- The run of `processPipes` on a pipeline of at least one command for which
every `pipe` call and every fork succeeds: it returns; the shell's descriptor
table is as on entry; its calls are the pipes, then the forks, then the closes of
every pipe descriptor, then one successful blocking wait per child in spawn
order; the children are those of the stages. -/
theorem processPipes_ok (env : Env) (cmds : List Command) (w : World) (hN : cmds ≠ [])
    (hpipes : (createPipes env (cmds.length - 1) w).halted = none)
    (hforks : ∀ k, k < cmds.length → env.forkFails (w.nextPid + k) = false) :
    ∃ ps w1 w', createPipes env (cmds.length - 1) w = Step.ok ps w1 ∧
      processPipes env cmds w = Step.ok () w' ∧
      w'.shell.fds = w.shell.fds ∧
      w'.shell.calls = w.shell.calls ++
        (ps.map (fun pr => Syscall.pipe (some pr)) ++
          ((List.range' (w.nextPid + 1) cmds.length).map (fun pid => Syscall.fork (some pid)) ++
            ((pipeFds ps).map Syscall.close ++
              (List.range' (w.nextPid + 1) cmds.length).map
                (fun pid => Syscall.waitpid pid (some pid))))) ∧
      w'.children = w.children ++
        stageChildren env ps cmds.length w1.shell.fds 0 w.nextPid cmds ∧
      w'.backgroundPIDs = w.backgroundPIDs := by
  obtain ⟨ps, w1, hc⟩ := createPipes_of_not_halted hpipes
  obtain ⟨hlen, hok, hcalls1, hch1, hbg1, hrun1, hnp1⟩ := createPipes_ok hc
  have hforks1 : ∀ k, k < cmds.length → env.forkFails (w1.nextPid + k) = false := by
    intro k hk
    rw [hnp1]
    exact hforks k hk
  obtain ⟨w2, hfs, hfds2, hcalls2, hch2, hrun2, hbg2⟩ :=
    forkStages_ok env ps cmds.length 0 cmds w1 hforks1
  have hlen0 : ¬ cmds.length = 0 := by
    intro h0
    exact hN (List.length_eq_zero.1 h0)
  have hframe := waitAll_frame env (List.range' (w1.nextPid + 1) cmds.length)
    { w2 with shell := closePipes ps w2.shell }
  have hwcalls := waitAll_calls env (List.range' (w1.nextPid + 1) cmds.length)
    { w2 with shell := closePipes ps w2.shell } (List.nodup_range' _ _)
    (by
      intro pid hpid
      simp only
      rw [hrun2]
      exact List.mem_append_right _ hpid)
    (by
      intro pid hpid
      simp only
      rw [hch2]
      have hmem : pid ∈ (stageChildren env ps cmds.length w1.shell.fds 0 w1.nextPid cmds).map
          (fun c => c.pid) := by
        rw [stageChildren_pids]
        exact hpid
      obtain ⟨c, hcmem, hcpid⟩ := List.mem_map.1 hmem
      exact ⟨c, List.mem_append_right _ hcmem, hcpid⟩)
  refine ⟨ps, w1, waitAll env (List.range' (w1.nextPid + 1) cmds.length)
    { w2 with shell := closePipes ps w2.shell }, hc, ?_, ?_, ?_, ?_, ?_⟩
  · unfold processPipes
    simp only [hlen0, if_false, hc, hfs]
  · rw [hframe.2.2]
    simp only
    have hok2 : PipesOK env.nofile w.shell.fds w.nextPipe ps w2.shell.fds := by
      rw [hfds2]
      exact hok
    exact closePipes_restores hok2
  · rw [hwcalls]
    simp only
    rw [closePipes_calls, hcalls2, hcalls1, hnp1]
    simp only [List.append_assoc]
  · rw [hframe.2.1]
    simp only
    rw [hch2, hch1, hnp1]
  · rw [hframe.1]
    simp only
    rw [hbg2, hbg1]

theorem forkedPid_pipes (ps : List (Fd × Fd)) :
    (ps.map (fun pr => Syscall.pipe (some pr))).filterMap Syscall.forkedPid = [] := by
  induction ps with
  | nil => rfl
  | cons pr prs ih => simp [Syscall.forkedPid]

theorem forkedPid_forks (pids : List Pid) :
    (pids.map (fun pid => Syscall.fork (some pid))).filterMap Syscall.forkedPid = pids := by
  induction pids with
  | nil => rfl
  | cons pid pids ih => simpa [Syscall.forkedPid] using ih

theorem forkedPid_closes (fds : List Fd) :
    (fds.map Syscall.close).filterMap Syscall.forkedPid = [] := by
  induction fds with
  | nil => rfl
  | cons fd fds ih => simp [Syscall.forkedPid]

/-- C6: for every pipeline of N >= 1 commands for which every `pipe` call and every
fork succeeds, `processPipes` returns; the calls it made are exactly N-1 `pipe`
calls, then N forks (with N distinct pids, one new child each), then the closes of
both descriptors of every one of those pipes, then the waits; and the shell's
descriptor table on return is the table on entry. -/
theorem processPipes_pipes_children_closes (env : Env) (cmds : List Command) (w : World)
    (hN : cmds ≠ [])
    (hpipes : (createPipes env (cmds.length - 1) w).halted = none)
    (hforks : ∀ k, k < cmds.length → env.forkFails (w.nextPid + k) = false) :
    ∃ ps pids w', processPipes env cmds w = Step.ok () w' ∧
      ps.length = cmds.length - 1 ∧ pids.length = cmds.length ∧ pids.Nodup ∧
      w'.shell.calls = w.shell.calls ++
        (ps.map (fun pr => Syscall.pipe (some pr)) ++
          (pids.map (fun pid => Syscall.fork (some pid)) ++
            ((pipeFds ps).map Syscall.close ++
              pids.map (fun pid => Syscall.waitpid pid (some pid))))) ∧
      w'.children.map (fun c => c.pid) = w.children.map (fun c => c.pid) ++ pids ∧
      (∀ fd, fd ∈ pipeFds ps → w'.shell.fds fd = none) ∧
      w'.shell.fds = w.shell.fds := by
  obtain ⟨ps, w1, w', hc, hrun, hfds, hcalls, hch, _⟩ :=
    processPipes_ok env cmds w hN hpipes hforks
  obtain ⟨hlen, hok, _⟩ := createPipes_ok hc
  refine ⟨ps, List.range' (w.nextPid + 1) cmds.length, w', hrun, hlen, by simp,
    List.nodup_range' _ _, hcalls, ?_, ?_, hfds⟩
  · rw [hch, List.map_append, stageChildren_pids]
  · intro fd hfd
    rw [hfds]
    exact hok.fresh fd hfd

/-- Witness for C6: `ls | wc` in a shell started from a terminal. -/
theorem processPipes_pipes_children_closes_witness :
    lsWc ≠ [] ∧
      ∃ ps pids w', processPipes (demoEnv 0) lsWc (startWorld stdTable "/home/user") =
          Step.ok () w' ∧
        ps.length = lsWc.length - 1 ∧ pids.length = lsWc.length ∧ pids.Nodup ∧
        w'.shell.calls = (startWorld stdTable "/home/user").shell.calls ++
          (ps.map (fun pr => Syscall.pipe (some pr)) ++
            (pids.map (fun pid => Syscall.fork (some pid)) ++
              ((pipeFds ps).map Syscall.close ++
                pids.map (fun pid => Syscall.waitpid pid (some pid))))) ∧
        w'.children.map (fun c => c.pid) =
          (startWorld stdTable "/home/user").children.map (fun c => c.pid) ++ pids ∧
        (∀ fd, fd ∈ pipeFds ps → w'.shell.fds fd = none) ∧
        w'.shell.fds = (startWorld stdTable "/home/user").shell.fds :=
  ⟨by decide,
   processPipes_pipes_children_closes (demoEnv 0) lsWc (startWorld stdTable "/home/user")
     (by decide) (by decide) (fun _ _ => rfl)⟩

/-- C8: for every pipeline for which every `pipe` call and every fork succeeds, and
for every way its stages end (the environment decides which programs exist and
how they terminate), `processPipes` does not terminate the shell: it returns, and
the calls it made end with one successful blocking `waitpid` for each of the N
spawned pids, each exactly once, in spawn order, with no wait call before them. -/
theorem processPipes_waits_in_spawn_order (env : Env) (cmds : List Command) (w : World)
    (hN : cmds ≠ [])
    (hpipes : (createPipes env (cmds.length - 1) w).halted = none)
    (hforks : ∀ k, k < cmds.length → env.forkFails (w.nextPid + k) = false) :
    (processPipes env cmds w).halted = none ∧
      ∃ pre pids, pids.length = cmds.length ∧ pids.Nodup ∧
        pre.filterMap Syscall.forkedPid = pids ∧
        (∀ c, c ∈ pre → c.isWait = false) ∧
        (processPipes env cmds w).world.shell.calls =
          w.shell.calls ++ (pre ++ pids.map (fun pid => Syscall.waitpid pid (some pid))) := by
  obtain ⟨ps, w1, w', hc, hrun, hfds, hcalls, hch, _⟩ :=
    processPipes_ok env cmds w hN hpipes hforks
  rw [hrun]
  refine ⟨rfl, ps.map (fun pr => Syscall.pipe (some pr)) ++
      ((List.range' (w.nextPid + 1) cmds.length).map (fun pid => Syscall.fork (some pid)) ++
        (pipeFds ps).map Syscall.close),
    List.range' (w.nextPid + 1) cmds.length, by simp, List.nodup_range' _ _, ?_, ?_, ?_⟩
  · rw [List.filterMap_append, List.filterMap_append, forkedPid_pipes, forkedPid_forks,
      forkedPid_closes]
    simp
  · intro c hcmem
    rcases List.mem_append.1 hcmem with h | h
    · obtain ⟨pr, _, hpr⟩ := List.mem_map.1 h
      rw [← hpr]
      rfl
    · rcases List.mem_append.1 h with h | h
      · obtain ⟨pid, _, hpid⟩ := List.mem_map.1 h
        rw [← hpid]
        rfl
      · obtain ⟨fd, _, hfd⟩ := List.mem_map.1 h
        rw [← hfd]
        rfl
  · simp only [Step.world]
    rw [hcalls]
    simp only [List.append_assoc]

/-- Witness for C8: `ls | nosuchprog` in a shell started from a terminal; the
second stage exits with 2 because its program does not exist, and the shell
returns to the prompt loop. -/
theorem processPipes_waits_in_spawn_order_witness :
    (processPipes (demoEnv 0) [simpleCommand ["ls"], simpleCommand ["nosuchprog"]]
        (startWorld stdTable "/home/user")).world.children.map (Child.termination (demoEnv 0))
        = [Termination.exited 0, Termination.exited 2] ∧
      (processPipes (demoEnv 0) [simpleCommand ["ls"], simpleCommand ["nosuchprog"]]
        (startWorld stdTable "/home/user")).halted = none :=
  ⟨by decide,
   (processPipes_waits_in_spawn_order (demoEnv 0)
     [simpleCommand ["ls"], simpleCommand ["nosuchprog"]] (startWorld stdTable "/home/user")
     (by decide) (by decide) (fun _ _ => rfl)).1⟩

/-! ## The descriptor table of a pipeline stage -/

/-- The table after a `dup2` from an open descriptor. -/
theorem sysDup2_fds {oldfd newfd : Fd} {p : Proc} {d : Desc} (h : p.fds oldfd = some d) :
    (sysDup2 oldfd newfd p).2.fds = setFd p.fds newfd (some d) := by
  simp [sysDup2, h]

theorem getD_mem_pipeFds (ps : List (Fd × Fd)) (j : Nat) (hj : j < ps.length) :
    (ps.getD j (0, 0)).1 ∈ pipeFds ps ∧ (ps.getD j (0, 0)).2 ∈ pipeFds ps := by
  induction ps generalizing j with
  | nil => simp at hj
  | cons pr prs ih =>
    cases j with
    | zero => simp [pipeFds]
    | succ j =>
      have hj1 : j < prs.length := by
        simp only [List.length_cons] at hj
        omega
      have h := ih j hj1
      simp only [List.getD_cons_succ, pipeFds, List.mem_cons]
      exact ⟨Or.inr (Or.inr h.1), Or.inr (Or.inr h.2)⟩

/-- The table of a stage after the pipe wiring, when standard input and standard
output were open in the shell when it entered `processPipes`. -/
theorem wireStage_fds {nofile : Nat} {t0 : FdTable} {k0 : Nat} {ps : List (Fd × Fd)}
    {p : Proc} (hok : PipesOK nofile t0 k0 ps p.fds) (n i : Nat)
    (hlen : ps.length = n - 1) (hi : i < n)
    (h0 : (t0 STDIN_FILENO).isSome = true) (h1 : (t0 STDOUT_FILENO).isSome = true) :
    (wireStage ps n i p).fds =
      stageTable t0 k0 n i { args := [], in_file := none, out_file := none,
                             background := false } := by
  have hn0 : STDIN_FILENO ∉ pipeFds ps := by
    intro hmem
    rw [hok.fresh _ hmem] at h0
    simp at h0
  have hn1 : STDOUT_FILENO ∉ pipeFds ps := by
    intro hmem
    rw [hok.fresh _ hmem] at h1
    simp at h1
  funext fd
  unfold wireStage
  simp only
  -- the table after the first `dup2`
  generalize hq1 : (if i > 0 then (sysDup2 (ps.getD (i - 1) (0, 0)).1 STDIN_FILENO p).2
    else p) = q1
  have hp1 : ∀ x, q1.fds x =
      if x = STDIN_FILENO then
        (if i > 0 then some (Desc.pipeRead (k0 + (i - 1))) else t0 STDIN_FILENO)
      else p.fds x := by
    intro x
    rw [← hq1]
    by_cases hpos : i > 0
    · have hj : i - 1 < ps.length := by omega
      have he := (hok.ends (i - 1) hj).1
      simp only [hpos, if_true]
      rw [sysDup2_fds he]
      rfl
    · simp only [hpos, if_false]
      by_cases hx : x = STDIN_FILENO
      · simp only [hx, if_true]
        exact hok.outside _ hn0
      · simp only [hx, if_false]
  -- the table after the second `dup2`
  generalize hq2 : (if i < n - 1 then (sysDup2 (ps.getD i (0, 0)).2 STDOUT_FILENO q1).2
    else q1) = q2
  have hp2 : ∀ x, q2.fds x =
      if x = STDOUT_FILENO then
        (if i < n - 1 then some (Desc.pipeWrite (k0 + i)) else t0 STDOUT_FILENO)
      else if x = STDIN_FILENO then
        (if i > 0 then some (Desc.pipeRead (k0 + (i - 1))) else t0 STDIN_FILENO)
      else p.fds x := by
    intro x
    rw [← hq2]
    by_cases hlt : i < n - 1
    · have hj : i < ps.length := by omega
      have he := (hok.ends i hj).2
      have hmem := (getD_mem_pipeFds ps i hj).2
      have hne : (ps.getD i (0, 0)).2 ≠ STDIN_FILENO := by
        intro heq
        rw [heq] at hmem
        exact hn0 hmem
      have hsrc := hp1 (ps.getD i (0, 0)).2
      simp only [hne, if_false] at hsrc
      rw [he] at hsrc
      simp only [hlt, if_true]
      rw [sysDup2_fds hsrc]
      by_cases hx : x = STDOUT_FILENO
      · simp only [hx, if_true, setFd]
      · simp only [hx, if_false, setFd]
        exact hp1 x
    · simp only [hlt, if_false]
      rw [hp1 x]
      by_cases hx1 : x = STDOUT_FILENO
      · have hne : ¬ (STDOUT_FILENO = STDIN_FILENO) := by decide
        simp only [hx1, if_true, hne, if_false]
        exact hok.outside _ hn1
      · simp only [hx1, if_false]
  rw [closePipes_fds, hp2 fd]
  unfold stageTable
  by_cases hfd0 : fd = STDIN_FILENO
  · have hne : ¬ (STDIN_FILENO = STDOUT_FILENO) := by decide
    subst hfd0
    simp only [hn0, if_false, hne, if_true]
  · by_cases hfd1 : fd = STDOUT_FILENO
    · subst hfd1
      simp only [hn1, if_false, if_true, hfd0]
    · simp only [hfd0, hfd1, if_false]
      by_cases hmem : fd ∈ pipeFds ps
      · simp only [hmem, if_true]
        exact (hok.fresh fd hmem).symm
      · simp only [hmem, if_false]
        exact hok.outside fd hmem

/-- Whatever `execvp` answers, the child reached it with the table it had. -/
theorem execCommand_fdsAtExec (env : Env) (args : List String) (p : Proc) :
    (execCommand env args p).fdsAtExec = some p.fds := by
  unfold execCommand
  split
  · split <;> simp [ChildEnd.fdsAtExec, ChildEnd.proc, Proc.log]
  · simp [ChildEnd.fdsAtExec, ChildEnd.proc, Proc.log]

/-- The call `open` succeeds when the file can be opened and a descriptor below the
limit is closed. -/
theorem sysOpen_succeeds {env : Env} {path : String} {flags : List OFlag} (mode : Nat)
    {p : Proc} (hcan : env.canOpen path flags = true)
    (hfree : ∃ fd, fd < env.nofile ∧ p.fds fd = none) :
    ∃ fd, (sysOpen env path flags mode p).1 = some fd := by
  obtain ⟨fd, hlt, hnone⟩ := hfree
  have hne := lowestFree_ne_none hlt hnone
  unfold sysOpen
  cases hl : lowestFree env.nofile p.fds with
  | none => exact absurd hl hne
  | some fd1 => exact ⟨fd1, by simp [hcan]⟩

/-- The table after `processInput` when standard input was open and the file opens. -/
theorem processInput_ok {env : Env} {file : String} {p : Proc}
    (h0 : (p.fds STDIN_FILENO).isSome = true)
    (hcan : env.canOpen file [OFlag.O_RDONLY] = true)
    (hfree : ∃ fd, fd < env.nofile ∧ p.fds fd = none) :
    ∃ p', processInput env file p = PStep.ok p' ∧
      p'.fds = setFd p.fds STDIN_FILENO (some (Desc.file file [OFlag.O_RDONLY] 0)) := by
  obtain ⟨fd, h⟩ := sysOpen_succeeds 0 hcan hfree
  have hb := bind_table p.fds fd STDIN_FILENO (Desc.file file [OFlag.O_RDONLY] 0)
    (sysOpen_some h).1 h0
  refine ⟨_, processInput_some h, ?_⟩
  rw [redirect_fds STDIN_FILENO h]
  funext x
  by_cases hx : x = STDIN_FILENO
  · rw [hx, hb.1, setFd_same]
  · rw [hb.2 x hx, setFd_other _ _ _ _ hx]

/-- The table after `processOutput` when standard output was open and the file opens. -/
theorem processOutput_ok {env : Env} {file : String} {p : Proc}
    (h1 : (p.fds STDOUT_FILENO).isSome = true)
    (hcan : env.canOpen file [OFlag.O_WRONLY, OFlag.O_CREAT, OFlag.O_TRUNC] = true)
    (hfree : ∃ fd, fd < env.nofile ∧ p.fds fd = none) :
    ∃ p', processOutput env file p = PStep.ok p' ∧
      p'.fds = setFd p.fds STDOUT_FILENO
        (some (Desc.file file [OFlag.O_WRONLY, OFlag.O_CREAT, OFlag.O_TRUNC] 0o644)) := by
  obtain ⟨fd, h⟩ := sysOpen_succeeds 0o644 hcan hfree
  have hb := bind_table p.fds fd STDOUT_FILENO
    (Desc.file file [OFlag.O_WRONLY, OFlag.O_CREAT, OFlag.O_TRUNC] 0o644) (sysOpen_some h).1 h1
  refine ⟨_, processOutput_some h, ?_⟩
  rw [redirect_fds STDOUT_FILENO h]
  funext x
  by_cases hx : x = STDOUT_FILENO
  · rw [hx, hb.1, setFd_same]
  · rw [hb.2 x hx, setFd_other _ _ _ _ hx]

/-- The table a child calls `execvp` with, after its redirections: the files it
names replace standard input and standard output, nothing else changes.  Both
standard streams are open before, the files can be opened, and a descriptor is
free when a file has to be opened. -/
theorem redirectAndExec_fds (env : Env) (cmd : Command) (p : Proc)
    (h0 : (p.fds STDIN_FILENO).isSome = true) (h1 : (p.fds STDOUT_FILENO).isSome = true)
    (hin : ∀ f, cmd.in_file = some f → env.canOpen f [OFlag.O_RDONLY] = true)
    (hout : ∀ f, cmd.out_file = some f →
      env.canOpen f [OFlag.O_WRONLY, OFlag.O_CREAT, OFlag.O_TRUNC] = true)
    (hfree : (cmd.in_file ≠ none ∨ cmd.out_file ≠ none) →
      ∃ fd, fd < env.nofile ∧ p.fds fd = none) :
    (redirectAndExec env cmd p).fdsAtExec = some (fun fd =>
      if fd = STDIN_FILENO then
        match cmd.in_file with
        | some f => some (Desc.file f [OFlag.O_RDONLY] 0)
        | none => p.fds STDIN_FILENO
      else if fd = STDOUT_FILENO then
        match cmd.out_file with
        | some f => some (Desc.file f [OFlag.O_WRONLY, OFlag.O_CREAT, OFlag.O_TRUNC] 0o644)
        | none => p.fds STDOUT_FILENO
      else p.fds fd) := by
  have h01 : ¬ (STDOUT_FILENO = STDIN_FILENO) := by decide
  unfold redirectAndExec
  cases hi : cmd.in_file with
  | none =>
    cases ho : cmd.out_file with
    | none =>
      simp only [Command.hasInput, Command.hasOutput, hi, ho, Option.isSome_none,
        Bool.false_eq_true, if_false]
      rw [execCommand_fdsAtExec]
      congr 1
      funext fd
      by_cases hfd0 : fd = STDIN_FILENO
      · simp only [hfd0, if_true]
      · by_cases hfd1 : fd = STDOUT_FILENO
        · simp only [hfd1, h01, if_false, if_true]
        · simp only [hfd0, hfd1, if_false]
    | some g =>
      obtain ⟨p', hp', hfds'⟩ := processOutput_ok h1 (hout g ho)
        (hfree (Or.inr (by simp [ho])))
      simp only [Command.hasInput, Command.hasOutput, hi, ho, Option.isSome_none,
        Option.isSome_some, Bool.false_eq_true, if_false, if_true, Option.getD_some, hp']
      rw [execCommand_fdsAtExec, hfds']
      congr 1
      funext fd
      by_cases hfd0 : fd = STDIN_FILENO
      · simp only [hfd0, if_true, setFd]
        simp [STDIN_FILENO, STDOUT_FILENO]
      · by_cases hfd1 : fd = STDOUT_FILENO
        · simp only [hfd1, h01, if_false, if_true, setFd]
        · simp only [hfd0, hfd1, if_false, setFd]
  | some f =>
    obtain ⟨p', hp', hfds'⟩ := processInput_ok h0 (hin f hi) (hfree (Or.inl (by simp [hi])))
    have h1' : (p'.fds STDOUT_FILENO).isSome = true := by
      rw [hfds', setFd_other _ _ _ _ h01]
      exact h1
    cases ho : cmd.out_file with
    | none =>
      simp only [Command.hasInput, Command.hasOutput, hi, ho, Option.isSome_none,
        Option.isSome_some, Bool.false_eq_true, if_false, if_true, Option.getD_some, hp']
      rw [execCommand_fdsAtExec, hfds']
      congr 1
      funext fd
      by_cases hfd0 : fd = STDIN_FILENO
      · simp only [hfd0, if_true, setFd]
      · by_cases hfd1 : fd = STDOUT_FILENO
        · simp only [hfd1, h01, if_false, if_true, setFd]
        · simp only [hfd0, hfd1, if_false, setFd]
    | some g =>
      have hfree' : ∃ fd, fd < env.nofile ∧ p'.fds fd = none := by
        obtain ⟨fd, hlt, hnone⟩ := hfree (Or.inl (by simp [hi]))
        have hne : fd ≠ STDIN_FILENO := by
          intro heq
          rw [← heq, hnone] at h0
          simp at h0
        exact ⟨fd, hlt, by rw [hfds', setFd_other _ _ _ _ hne]; exact hnone⟩
      obtain ⟨q', hq', hfdsq⟩ := processOutput_ok h1' (hout g ho) hfree'
      simp only [Command.hasInput, Command.hasOutput, hi, ho,
        Option.isSome_some, if_true, Option.getD_some, hp', hq']
      rw [execCommand_fdsAtExec, hfdsq, hfds']
      congr 1
      funext fd
      by_cases hfd0 : fd = STDIN_FILENO
      · simp only [hfd0, if_true, setFd]
        simp [STDIN_FILENO, STDOUT_FILENO]
      · by_cases hfd1 : fd = STDOUT_FILENO
        · simp only [hfd1, h01, if_false, if_true, setFd]
        · simp only [hfd0, hfd1, if_false, setFd]

/-- The child of stage `i` of a pipeline whose pipes and forks succeed, run by a
shell whose standard input and standard output are open: it is the `i`-th new
child, and it calls `execvp` with the table `stageTable`.  The files the stage
names can be opened, and a stage that names a file is part of a pipeline of at
least two stages. -/
theorem processPipes_stage (env : Env) (cmds : List Command) (w : World) (i : Nat)
    (cmd : Command)
    (hpipes : (createPipes env (cmds.length - 1) w).halted = none)
    (hforks : ∀ k, k < cmds.length → env.forkFails (w.nextPid + k) = false)
    (h0 : (w.shell.fds STDIN_FILENO).isSome = true)
    (h1 : (w.shell.fds STDOUT_FILENO).isSome = true)
    (hcmd : cmds[i]? = some cmd)
    (hin : ∀ f, cmd.in_file = some f → env.canOpen f [OFlag.O_RDONLY] = true)
    (hout : ∀ f, cmd.out_file = some f →
      env.canOpen f [OFlag.O_WRONLY, OFlag.O_CREAT, OFlag.O_TRUNC] = true)
    (hpiped : (cmd.in_file ≠ none ∨ cmd.out_file ≠ none) → 2 ≤ cmds.length) :
    ∃ ps w1 w' c, createPipes env (cmds.length - 1) w = Step.ok ps w1 ∧
      ps.length = cmds.length - 1 ∧
      processPipes env cmds w = Step.ok () w' ∧
      w'.children[w.children.length + i]? = some c ∧
      c.pid = w.nextPid + 1 + i ∧
      c.run.fdsAtExec = some (stageTable w.shell.fds w.nextPipe cmds.length i cmd) ∧
      ∀ fd, fd ∈ pipeFds ps →
        w.shell.fds fd = none ∧ fd ≠ STDIN_FILENO ∧ fd ≠ STDOUT_FILENO := by
  have hi : i < cmds.length := by
    by_contra hge
    have : cmds[i]? = none := List.getElem?_eq_none (by omega)
    rw [this] at hcmd
    cases hcmd
  have hN : cmds ≠ [] := by
    intro hnil
    rw [hnil] at hi
    simp at hi
  obtain ⟨ps, w1, w', hc, hrun, _, _, hch, _⟩ := processPipes_ok env cmds w hN hpipes hforks
  obtain ⟨hlen, hok, _⟩ := createPipes_ok hc
  have hfresh : ∀ fd, fd ∈ pipeFds ps →
      w.shell.fds fd = none ∧ fd ≠ STDIN_FILENO ∧ fd ≠ STDOUT_FILENO := by
    intro fd hfd
    have hnone := hok.fresh fd hfd
    refine ⟨hnone, ?_, ?_⟩
    · intro heq
      rw [← heq, hnone] at h0
      simp at h0
    · intro heq
      rw [← heq, hnone] at h1
      simp at h1
  have hwire : (wireStage ps cmds.length i { fds := w1.shell.fds, calls := [] }).fds =
      stageTable w.shell.fds w.nextPipe cmds.length i
        { args := [], in_file := none, out_file := none, background := false } :=
    @wireStage_fds env.nofile w.shell.fds w.nextPipe ps { fds := w1.shell.fds, calls := [] } hok
      cmds.length i hlen hi h0 h1
  have hw0 : ((wireStage ps cmds.length i { fds := w1.shell.fds, calls := [] }).fds
      STDIN_FILENO).isSome = true := by
    rw [hwire]
    unfold stageTable
    by_cases hpos : i > 0
    · simp [hpos]
    · simpa [hpos] using h0
  have hw1 : ((wireStage ps cmds.length i { fds := w1.shell.fds, calls := [] }).fds
      STDOUT_FILENO).isSome = true := by
    rw [hwire]
    unfold stageTable
    have hne : ¬ (STDOUT_FILENO = STDIN_FILENO) := by decide
    by_cases hlt : i < cmds.length - 1
    · simp [hlt, hne]
    · simpa [hlt, hne] using h1
  have hfree : (cmd.in_file ≠ none ∨ cmd.out_file ≠ none) →
      ∃ fd, fd < env.nofile ∧
        (wireStage ps cmds.length i { fds := w1.shell.fds, calls := [] }).fds fd = none := by
    intro hredir
    have h2 := hpiped hredir
    have hj : 0 < ps.length := by omega
    have hmem := (getD_mem_pipeFds ps 0 hj).1
    obtain ⟨hnone, hne0, hne1⟩ := hfresh _ hmem
    refine ⟨(ps.getD 0 (0, 0)).1, hok.below _ hmem, ?_⟩
    rw [hwire]
    unfold stageTable
    simp only [hne0, hne1, if_false]
    exact hnone
  have htable := redirectAndExec_fds env cmd
    (wireStage ps cmds.length i { fds := w1.shell.fds, calls := [] }) hw0 hw1 hin hout hfree
  refine ⟨ps, w1, w', Child.mk (w.nextPid + 1 + i) false
    (pipeChild env ps cmds.length (0 + i) cmd { fds := w1.shell.fds, calls := [] }),
    hc, hlen, hrun, ?_, rfl, ?_, hfresh⟩
  · rw [hch, List.getElem?_append_right (Nat.le_add_right _ _), Nat.add_sub_cancel_left]
    exact stageChildren_get env ps cmds.length w1.shell.fds 0 w.nextPid cmds i cmd hcmd
  · simp only [Nat.zero_add, pipeChild]
    rw [htable]
    congr 1
    funext fd
    rw [hwire]
    unfold stageTable
    have hne : ¬ (STDOUT_FILENO = STDIN_FILENO) := by decide
    by_cases hfd0 : fd = STDIN_FILENO
    · simp only [hfd0, if_true]
    · by_cases hfd1 : fd = STDOUT_FILENO
      · simp only [hfd1, hne, if_false, if_true]
      · simp only [hfd0, hfd1, if_false]

theorem mem_pipeFds_of_mem {ps : List (Fd × Fd)} {pr : Fd × Fd} (h : pr ∈ ps) :
    pr.1 ∈ pipeFds ps ∧ pr.2 ∈ pipeFds ps := by
  induction ps with
  | nil => simp at h
  | cons q qs ih =>
    rcases List.mem_cons.1 h with heq | hmem
    · rw [heq]
      simp [pipeFds]
    · have := ih hmem
      simp only [pipeFds, List.mem_cons]
      exact ⟨Or.inr (Or.inr this.1), Or.inr (Or.inr this.2)⟩

/-- C7 (as amended): when standard input and standard output are open in the shell
on entry to `processPipes`, then for every pipeline of N commands whose `pipe`
calls and forks succeed and every stage `i < N` whose command has no file
redirection, child `i` calls `execvp` with a table in which standard input is the
read end of pipe `i-1` when `i > 0` and the inherited standard input when
`i = 0`, standard output is the write end of pipe `i` when `i < N-1` and the
inherited standard output when `i = N-1`, and none of the descriptors returned by
the N-1 `pipe` calls is open. -/
theorem pipeline_stage_descriptors (env : Env) (cmds : List Command) (w : World) (i : Nat)
    (cmd : Command)
    (hpipes : (createPipes env (cmds.length - 1) w).halted = none)
    (hforks : ∀ k, k < cmds.length → env.forkFails (w.nextPid + k) = false)
    (h0 : (w.shell.fds STDIN_FILENO).isSome = true)
    (h1 : (w.shell.fds STDOUT_FILENO).isSome = true)
    (hcmd : cmds[i]? = some cmd)
    (hnoin : cmd.in_file = none) (hnoout : cmd.out_file = none) :
    ∃ ps w' c T, (createPipes env (cmds.length - 1) w).value = some ps ∧
      ps.length = cmds.length - 1 ∧
      processPipes env cmds w = Step.ok () w' ∧
      w'.children[w.children.length + i]? = some c ∧
      c.run.fdsAtExec = some T ∧
      T STDIN_FILENO =
        (if i > 0 then some (Desc.pipeRead (w.nextPipe + (i - 1)))
          else w.shell.fds STDIN_FILENO) ∧
      T STDOUT_FILENO =
        (if i < cmds.length - 1 then some (Desc.pipeWrite (w.nextPipe + i))
          else w.shell.fds STDOUT_FILENO) ∧
      ∀ pr, pr ∈ ps → T pr.1 = none ∧ T pr.2 = none := by
  obtain ⟨ps, w1, w', c, hc, hlen, hrun, hchild, _, htable, hfresh⟩ :=
    processPipes_stage env cmds w i cmd hpipes hforks h0 h1 hcmd
      (by intro f hf; rw [hnoin] at hf; cases hf)
      (by intro f hf; rw [hnoout] at hf; cases hf)
      (by
        intro h
        rcases h with h | h
        · exact absurd hnoin h
        · exact absurd hnoout h)
  have hne : ¬ (STDOUT_FILENO = STDIN_FILENO) := by decide
  refine ⟨ps, w', c, _, by rw [hc]; rfl, hlen, hrun, hchild, htable, ?_, ?_, ?_⟩
  · simp [stageTable, hnoin]
  · simp [stageTable, hnoout, hne]
  · intro pr hpr
    obtain ⟨hm1, hm2⟩ := mem_pipeFds_of_mem hpr
    obtain ⟨hn1, ha1, hb1⟩ := hfresh _ hm1
    obtain ⟨hn2, ha2, hb2⟩ := hfresh _ hm2
    constructor
    · simp only [stageTable, ha1, hb1, if_false]
      exact hn1
    · simp only [stageTable, ha2, hb2, if_false]
      exact hn2

/-- Witness for C7 (as amended): the last stage of `ls | wc` in a shell started
from a terminal reads from pipe 0 and writes to the inherited standard output. -/
theorem pipeline_stage_descriptors_witness :
    ∃ ps w' c T,
      (createPipes (demoEnv 0) (lsWc.length - 1) (startWorld stdTable "/home/user")).value
        = some ps ∧
      ps.length = lsWc.length - 1 ∧
      processPipes (demoEnv 0) lsWc (startWorld stdTable "/home/user") = Step.ok () w' ∧
      w'.children[(startWorld stdTable "/home/user").children.length + 1]? = some c ∧
      c.run.fdsAtExec = some T ∧
      T STDIN_FILENO =
        (if 1 > 0 then some (Desc.pipeRead ((startWorld stdTable "/home/user").nextPipe + (1 - 1)))
          else (startWorld stdTable "/home/user").shell.fds STDIN_FILENO) ∧
      T STDOUT_FILENO =
        (if 1 < lsWc.length - 1 then
            some (Desc.pipeWrite ((startWorld stdTable "/home/user").nextPipe + 1))
          else (startWorld stdTable "/home/user").shell.fds STDOUT_FILENO) ∧
      ∀ pr, pr ∈ ps → T pr.1 = none ∧ T pr.2 = none :=
  pipeline_stage_descriptors (demoEnv 0) lsWc (startWorld stdTable "/home/user") 1
    (simpleCommand ["wc"]) (by decide) (fun _ _ => rfl) (by decide) (by decide) (by decide)
    rfl rfl

/-- C7 counterexample: `ls | wc` in a shell started with standard output closed.
Both `pipe` and the forks succeed and `processPipes` returns; the pipe gets the
descriptors 1 and 3; in the child of stage 0 (no redirection, `0 < N-1`) the
`dup2(3, 1)` is followed by `close(1)`, so it calls `execvp` with standard output
closed instead of referring to the write end of pipe 0. -/
theorem pipeline_stage_stdout_closed :
    (createPipes (demoEnv 0) (lsWc.length - 1) (startWorld noStdoutTable "/home/user")).value
        = some [(1, 3)] ∧
      (processPipes (demoEnv 0) lsWc (startWorld noStdoutTable "/home/user")).halted = none ∧
      (processPipes (demoEnv 0) lsWc
        (startWorld noStdoutTable "/home/user")).world.children.map
          (fun c => (c.pid, c.run.proc.calls)) =
        [(1, [Syscall.dup2 3 1 true, Syscall.close 1, Syscall.close 3, Syscall.execvp ["ls"]]),
         (2, [Syscall.dup2 1 0 true, Syscall.close 1, Syscall.close 3,
              Syscall.execvp ["wc"]])] ∧
      (processPipes (demoEnv 0) lsWc
        (startWorld noStdoutTable "/home/user")).world.children.map
          (fun c => c.run.fdsAtExec.map (fun T => T STDOUT_FILENO)) =
        [some none, some none] := by
  decide

/-- C10 (as amended): when standard input and standard output are open in the shell
on entry to `processPipes`, the `pipe` calls and forks succeed and the files the
stage names can be opened, then a stage `i < N-1` with an output file calls
`execvp` with standard output referring to that file and not to the write end of
pipe `i`, and a stage `i > 0` with an input file calls `execvp` with standard
input referring to that file and not to the read end of pipe `i-1`. -/
theorem pipeline_file_redirection_wins (env : Env) (cmds : List Command) (w : World)
    (i : Nat) (cmd : Command) (f : String)
    (hpipes : (createPipes env (cmds.length - 1) w).halted = none)
    (hforks : ∀ k, k < cmds.length → env.forkFails (w.nextPid + k) = false)
    (h0 : (w.shell.fds STDIN_FILENO).isSome = true)
    (h1 : (w.shell.fds STDOUT_FILENO).isSome = true)
    (hcmd : cmds[i]? = some cmd)
    (hin : ∀ g, cmd.in_file = some g → env.canOpen g [OFlag.O_RDONLY] = true)
    (hout : ∀ g, cmd.out_file = some g →
      env.canOpen g [OFlag.O_WRONLY, OFlag.O_CREAT, OFlag.O_TRUNC] = true) :
    (cmd.out_file = some f → i < cmds.length - 1 →
      ∃ w' c T, processPipes env cmds w = Step.ok () w' ∧
        w'.children[w.children.length + i]? = some c ∧
        c.run.fdsAtExec = some T ∧
        T STDOUT_FILENO =
          some (Desc.file f [OFlag.O_WRONLY, OFlag.O_CREAT, OFlag.O_TRUNC] 0o644) ∧
        T STDOUT_FILENO ≠ some (Desc.pipeWrite (w.nextPipe + i))) ∧
    (cmd.in_file = some f → 0 < i →
      ∃ w' c T, processPipes env cmds w = Step.ok () w' ∧
        w'.children[w.children.length + i]? = some c ∧
        c.run.fdsAtExec = some T ∧
        T STDIN_FILENO = some (Desc.file f [OFlag.O_RDONLY] 0) ∧
        T STDIN_FILENO ≠ some (Desc.pipeRead (w.nextPipe + (i - 1)))) := by
  have hi : i < cmds.length := by
    by_contra hge
    have : cmds[i]? = none := List.getElem?_eq_none (by omega)
    rw [this] at hcmd
    cases hcmd
  have hne : ¬ (STDOUT_FILENO = STDIN_FILENO) := by decide
  constructor
  · intro hf hlt
    obtain ⟨ps, w1, w', c, _, _, hrun, hchild, _, htable, _⟩ :=
      processPipes_stage env cmds w i cmd hpipes hforks h0 h1 hcmd hin hout
        (fun _ => by omega)
    have hT : stageTable w.shell.fds w.nextPipe cmds.length i cmd STDOUT_FILENO =
        some (Desc.file f [OFlag.O_WRONLY, OFlag.O_CREAT, OFlag.O_TRUNC] 0o644) := by
      simp [stageTable, hf, hne]
    refine ⟨w', c, _, hrun, hchild, htable, hT, ?_⟩
    rw [hT]
    simp
  · intro hf hpos
    obtain ⟨ps, w1, w', c, _, _, hrun, hchild, _, htable, _⟩ :=
      processPipes_stage env cmds w i cmd hpipes hforks h0 h1 hcmd hin hout
        (fun _ => by omega)
    have hT : stageTable w.shell.fds w.nextPipe cmds.length i cmd STDIN_FILENO =
        some (Desc.file f [OFlag.O_RDONLY] 0) := by
      simp [stageTable, hf]
    refine ⟨w', c, _, hrun, hchild, htable, hT, ?_⟩
    rw [hT]
    simp

/-- Witness for C10 (as amended): the first stage of `ls > out.txt | wc` in a shell
started from a terminal calls `execvp` with standard output referring to
`out.txt`. -/
theorem pipeline_file_redirection_wins_witness :
    ∃ w' c T, processPipes (demoEnv 0) lsToFileWc (startWorld stdTable "/home/user") =
        Step.ok () w' ∧
      w'.children[(startWorld stdTable "/home/user").children.length + 0]? = some c ∧
      c.run.fdsAtExec = some T ∧
      T STDOUT_FILENO =
        some (Desc.file "out.txt" [OFlag.O_WRONLY, OFlag.O_CREAT, OFlag.O_TRUNC] 0o644) ∧
      T STDOUT_FILENO ≠
        some (Desc.pipeWrite ((startWorld stdTable "/home/user").nextPipe + 0)) :=
  (pipeline_file_redirection_wins (demoEnv 0) lsToFileWc (startWorld stdTable "/home/user") 0
    { simpleCommand ["ls"] with out_file := some "out.txt" } "out.txt"
    (by decide) (fun _ _ => rfl) (by decide) (by decide) (by decide)
    (fun g hg => by cases hg) (fun g _ => rfl)).1 rfl (by decide)

/-- C10 counterexample: `ls > out.txt | wc` in a shell started with standard output
closed.  In the child of stage 0 the pipe wiring leaves descriptor 1 closed, the
`open` of `out.txt` succeeds and returns 1, `dup2(1, 1)` succeeds, and the
`close(1)` of `processOutput` closes the file: at `execvp` standard output is
closed and does not refer to the file. -/
theorem pipeline_file_redirection_lost :
    (processPipes (demoEnv 0) lsToFileWc (startWorld noStdoutTable "/home/user")).halted
        = none ∧
      (processPipes (demoEnv 0) lsToFileWc
        (startWorld noStdoutTable "/home/user")).world.children.map
          (fun c => c.run.proc.calls) =
        [[Syscall.dup2 3 1 true, Syscall.close 1, Syscall.close 3,
          Syscall.open "out.txt" [OFlag.O_WRONLY, OFlag.O_CREAT, OFlag.O_TRUNC] 0o644 (some 1),
          Syscall.dup2 1 1 true, Syscall.close 1, Syscall.execvp ["ls"]],
         [Syscall.dup2 1 0 true, Syscall.close 1, Syscall.close 3, Syscall.execvp ["wc"]]] ∧
      (processPipes (demoEnv 0) lsToFileWc
        (startWorld noStdoutTable "/home/user")).world.children.map
          (fun c => c.run.fdsAtExec.map (fun T => T STDOUT_FILENO)) =
        [some none, some none] := by
  decide

end Shell
